import Mathlib

/-!
Verification development for the PL/0C toolchain (rmerkel/pl0c).

The repository snapshot contains several generations of the toolchain:

* `src/pl0c/pl0c.h` — the older opcode set (with `odd` and `pop`, where
  `pushVar` reads-and-pushes a variable's value);
* `src/pl0c/pl0ccomp.h` — the recursive-descent compiler `PL0CComp`,
  which emits the older opcode set;
* `src/pl0c/pl0cinterp.cc` — the interpreter `pl0c::Interp`, whose
  dispatch implements the newer opcode set of `src/unnamed/part_000`
  (`pushVar` pushes an address, with separate `eval`/`assign`, plus
  bitwise / shift / logical operators).

Both generations share one opcode namespace by name, so this development
uses a single Lean `OpCode` inductive holding the union of the two
enumerations' constructor names; the compiler only emits its generation's
subset and the interpreter's dispatch only handles its own.

Machine words are signed 32-bit integers; they are modelled as `Int`
with explicit two's-complement wrapping (`wrap32`), and the narrower
C++ types (`int8_t` instruction levels, the `uint16_t` accumulator of
`Interp::base`) get their own explicit wraps (`wrap8`, `u16`).
-/

set_option maxRecDepth 10000
set_option maxHeartbeats 1600000

namespace Pl0c

/-- Two's-complement wrap of an integer into the `int32_t` range
`[-2^31, 2^31)`, the `pl0c::Word` type. -/
def wrap32 (x : Int) : Int := (x + 2 ^ 31) % 2 ^ 32 - 2 ^ 31

/-- Two's-complement wrap into the `int8_t` range `[-128, 128)`,
the type of an instruction's `level` field. -/
def wrap8 (x : Int) : Int := (x + 2 ^ 7) % 2 ^ 8 - 2 ^ 7

/-- Conversion of a C++ integer value to `uint16_t` (reduction mod `2^16`),
used by `Interp::base`, whose accumulator `b` has type `uint16_t`. -/
def u16 (x : Int) : Nat := (x % 2 ^ 16).toNat

/-- Union of the opcode names of the two generations present in the
source.  `odd` and `pop` appear only in the compiler's generation
(`src/pl0c/pl0c.h`); `Not`, `comp`, `rem`, `bor`, `band`, `bxor`,
`lshift`, `rshift`, `lor`, `land`, `eval`, `assign` and `halt` appear
only in the interpreter's generation (`src/unnamed/part_000`).  The
remaining names are common to both. -/
inductive OpCode where
  | odd | Not | neg | comp
  | add | sub | mul | div | rem
  | bor | band | bxor
  | lshift | rshift
  | lt | lte | equ | gte | gt | neq
  | lor | land
  | pushConst | pushVar | eval | assign | pop
  | call | enter | ret | reti
  | jump | jneq
  | halt
deriving DecidableEq, Repr

/-- A machine instruction `(op, level, addr)`; `level` is an `int8_t`
static-link hop count and `addr` a 32-bit word. -/
structure Instr where
  op : OpCode
  level : Int
  addr : Int
deriving DecidableEq, Repr

abbrev InstrVector := List Instr

/-- Frame layout constants (`enum Frame` of both generations):
offsets of the static link, the saved base pointer, the return
address and the return-value slot, and the total header size. -/
def FrameBase : Int := 0
def FrameOldBp : Int := 1
def FrameRetAddr : Int := 2
def FrameRetVal : Int := 3
def FrameSize : Int := 4

end Pl0c

namespace Interp

open Pl0c

/-- Outcomes on which `Interp::run` stops without a normal `pc == 0`
exit.  `pcOutOfRange` and `spOutOfRange` model the two asserts at the
top of the fetch loop; `stackOOB` models an out-of-bounds
`std::vector::operator[]` access (undefined behaviour in the C++);
`divZeroUB` models an integer division or remainder with zero divisor,
which the dispatch performs unchecked (undefined behaviour; the header
documentation notes the implementation may trap); `unknownOpcode`
models the `default:` case, the only branch that prints a runtime
diagnostic (`cerr << "Unknown op code"`); `fuelExhausted` is an
artifact of the bounded model of the fetch loop. -/
inductive RunErr where
  | pcOutOfRange | spOutOfRange | stackOOB | divZeroUB | unknownOpcode
  | fuelExhausted
deriving DecidableEq, Repr

/-- Which abnormal outcomes are accompanied by a runtime diagnostic
issued by the interpreter itself: only the `default:` branch of the
dispatch writes an error message. -/
def isReported : RunErr → Bool
  | .unknownOpcode => true
  | _ => false

/-- Result of a machine transition: either a successor value or an
abnormal stop. -/
inductive VMRes (α : Type) where
  | ok (a : α)
  | error (e : RunErr)
deriving DecidableEq, Repr

instance : Monad VMRes where
  pure := .ok
  bind m f := match m with
    | .ok a => f a
    | .error e => .error e

/-- Machine state of `pl0c::Interp`: the loaded code vector, the data
stack, and the `pc`, `bp`, `sp` registers.  `sp = -1` denotes the empty
stack; the registers are mathematical integers standing for the C++
`size_t`/`int` registers. -/
structure IState where
  code : List Instr
  stack : List Int
  pc : Int
  bp : Int
  sp : Int
deriving DecidableEq, Repr

/-- Read `stack[i]`; out-of-bounds access is undefined behaviour in the
C++ and is modelled as `stackOOB`. -/
def rdI (stk : List Int) (i : Int) : VMRes Int :=
  if 0 ≤ i ∧ i < (stk.length : Int) then .ok (stk.getD i.toNat 0)
  else .error .stackOOB

/-- Write `stack[i] = v`; out-of-bounds access is modelled as
`stackOOB`. -/
def wrI (stk : List Int) (i : Int) (v : Int) : VMRes (List Int) :=
  if 0 ≤ i ∧ i < (stk.length : Int) then .ok (stk.set i.toNat v)
  else .error .stackOOB

/-- Iterated static-link dereference: `b = stack[b]`, `hops` times,
with the `uint16_t` truncation the C++ accumulator applies at each
assignment. -/
def baseLoop (stk : List Int) : Nat → Nat → VMRes Nat
  | 0, b => .ok b
  | hops + 1, b =>
    match rdI stk (b : Int) with
    | .error e => .error e
    | .ok v => baseLoop stk hops (u16 v)

/-- `Interp::base(lvl)`: start at `bp` and follow the static links
`lvl` times.  Both the start value and the hop count pass through the
`uint16_t` parameter/accumulator type. -/
def base (stk : List Int) (bp : Int) (lvl : Int) : VMRes Nat :=
  baseLoop stk (u16 lvl) (u16 bp)

/-- Shared shape of the binary-operator cases of the dispatch:
`--sp; stack[sp] = stack[sp] OP stack[sp+1]`. -/
def binop (s : IState) (pc : Int) (f : Int → Int → VMRes Int) : VMRes IState := do
  let a ← rdI s.stack (s.sp - 1)
  let b ← rdI s.stack s.sp
  let v ← f a b
  let stk ← wrI s.stack (s.sp - 1) v
  pure { s with stack := stk, sp := s.sp - 1, pc := pc }

/-- Shared shape of the unary-operator cases of the dispatch:
`stack[sp] = OP stack[sp]`. -/
def unop (s : IState) (pc : Int) (f : Int → Int) : VMRes IState := do
  let a ← rdI s.stack s.sp
  let stk ← wrI s.stack s.sp (f a)
  pure { s with stack := stk, pc := pc }

/-- An instruction as read back through its field types: `level` is an
`int8_t` and `addr` a 32-bit word. -/
def normInstr (i : Instr) : Instr := ⟨i.op, wrap8 i.level, wrap32 i.addr⟩

/-- One iteration of the fetch/decode/dispatch loop of `Interp::run`
(`src/pl0c/pl0cinterp.cc`): the two asserts at the top of the loop, the
fetch `ir = code[pc++]`, and the dispatch switch. -/
def step (s : IState) : VMRes IState :=
  if ¬ (0 ≤ s.pc ∧ s.pc < (s.code.length : Int)) then .error .pcOutOfRange
  else if s.sp ≠ -1 ∧ ¬ (s.sp < (s.stack.length : Int)) then .error .spOutOfRange
  else
    let ir := normInstr (s.code.getD s.pc.toNat ⟨.halt, 0, 0⟩)
    let pc := s.pc + 1
    match ir.op with
    | .Not => unop s pc (fun a => if a = 0 then 1 else 0)
    | .neg => unop s pc (fun a => wrap32 (-a))
    | .comp => unop s pc (fun a => wrap32 (-a - 1))
    | .add => binop s pc (fun a b => .ok (wrap32 (a + b)))
    | .sub => binop s pc (fun a b => .ok (wrap32 (a - b)))
    | .mul => binop s pc (fun a b => .ok (wrap32 (a * b)))
    | .div => binop s pc (fun a b =>
        if b = 0 then .error .divZeroUB else .ok (wrap32 (a.tdiv b)))
    | .rem => binop s pc (fun a b =>
        if b = 0 then .error .divZeroUB else .ok (wrap32 (a.tmod b)))
    | .bor => binop s pc (fun a b => .ok (wrap32 (Int.ofNat (Nat.lor (a % 2 ^ 32).toNat (b % 2 ^ 32).toNat))))
    | .band => binop s pc (fun a b => .ok (if a ≠ 0 ∧ b ≠ 0 then 1 else 0))
    | .bxor => binop s pc (fun a b => .ok (wrap32 (Int.ofNat (Nat.xor (a % 2 ^ 32).toNat (b % 2 ^ 32).toNat))))
    | .lshift => binop s pc (fun a b => .ok (wrap32 (a * 2 ^ (b % 32).toNat)))
    | .rshift => binop s pc (fun a b => .ok (wrap32 (Int.fdiv a (2 ^ (b % 32).toNat))))
    | .equ => binop s pc (fun a b => .ok (if a = b then 1 else 0))
    | .neq => binop s pc (fun a b => .ok (if a ≠ b then 1 else 0))
    | .lt => binop s pc (fun a b => .ok (if a < b then 1 else 0))
    | .gte => binop s pc (fun a b => .ok (if a ≥ b then 1 else 0))
    | .gt => binop s pc (fun a b => .ok (if a > b then 1 else 0))
    | .lte => binop s pc (fun a b => .ok (if a ≤ b then 1 else 0))
    | .lor => binop s pc (fun a b => .ok (if a ≠ 0 ∨ b ≠ 0 then 1 else 0))
    | .land => binop s pc (fun a b => .ok (if a ≠ 0 ∧ b ≠ 0 then 1 else 0))
    | .pushConst => do
        let stk ← wrI s.stack (s.sp + 1) ir.addr
        pure { s with stack := stk, sp := s.sp + 1, pc := pc }
    | .pushVar => do
        let b ← base s.stack s.bp ir.level
        let stk ← wrI s.stack (s.sp + 1) (wrap32 ((b : Int) + ir.addr))
        pure { s with stack := stk, sp := s.sp + 1, pc := pc }
    | .eval => do
        let ea ← rdI s.stack s.sp
        let v ← rdI s.stack ea
        let stk ← wrI s.stack s.sp v
        pure { s with stack := stk, pc := pc }
    | .assign => do
        let ea ← rdI s.stack s.sp
        let v ← rdI s.stack (s.sp - 1)
        let stk ← wrI s.stack ea v
        pure { s with stack := stk, sp := s.sp - 2, pc := pc }
    | .call => do
        let b ← base s.stack s.bp ir.level
        let st1 ← wrI s.stack (s.sp + 1 + FrameBase) (wrap32 (b : Int))
        let st2 ← wrI st1 (s.sp + 1 + FrameOldBp) (wrap32 s.bp)
        let st3 ← wrI st2 (s.sp + 1 + FrameRetAddr) (wrap32 pc)
        let st4 ← wrI st3 (s.sp + 1 + FrameRetVal) 0
        pure { s with stack := st4, bp := s.sp + 1, sp := s.sp + FrameSize, pc := ir.addr }
    | .ret => do
        let rpc ← rdI s.stack (s.bp + FrameRetAddr)
        let rbp ← rdI s.stack (s.bp + FrameOldBp)
        pure { s with sp := s.bp - 1 - ir.addr, pc := rpc, bp := rbp }
    | .reti => do
        let tmp ← rdI s.stack (s.bp + FrameRetVal)
        let rpc ← rdI s.stack (s.bp + FrameRetAddr)
        let rbp ← rdI s.stack (s.bp + FrameOldBp)
        let sp1 := s.bp - 1 - ir.addr
        let stk ← wrI s.stack (sp1 + 1) tmp
        pure { s with stack := stk, sp := sp1 + 1, pc := rpc, bp := rbp }
    | .enter => .ok { s with sp := s.sp + ir.addr, pc := pc }
    | .jump => .ok { s with pc := ir.addr }
    | .jneq => do
        let v ← rdI s.stack s.sp
        pure { s with sp := s.sp - 1, pc := if v = 0 then ir.addr else pc }
    | _ => .error .unknownOpcode

/-- The do-while loop of `Interp::run`, bounded by fuel: execute one
instruction, stop when `pc == 0`, and return the sequence of machine
states passed through together with the cycle count. -/
def runStates : Nat → IState → List IState × VMRes Nat
  | 0, s => ([s], .error .fuelExhausted)
  | fuel + 1, s =>
    match step s with
    | .error e => ([s], .error e)
    | .ok t =>
      if t.pc = 0 then ([s, t], .ok 1)
      else
        let r := runStates fuel t
        (s :: r.1, match r.2 with
          | .ok n => .ok (n + 1)
          | .error e => .error e)

/-- `Interp::reset`: `stack[0] = stack[1] = stack[2] = stack[3] = 0`,
`pc = 0`, `bp = 0`, `sp = 3`. -/
def resetStack (stk : List Int) : List Int :=
  ((((stk.set 0 0).set 1 0).set 2 0).set 3 0)

/-- `Interp::operator()`: overwrite every cell of the existing stack
with `-1`, load the program, and reset the registers and the synthetic
caller frame.  `oldStack` is the stack contents left over from any
earlier use of the machine. -/
def opCall (oldStack : List Int) (program : List Instr) : IState :=
  { code := program
    stack := resetStack (oldStack.map (fun _ => (-1 : Int)))
    pc := 0
    bp := 0
    sp := 3 }

end Interp

namespace PL0CComp

open Pl0c

/-- Modelled from the spec: the token kinds used by the compiler
`PL0CComp` (`src/pl0c/pl0ccomp.h`).  The `token.h` of this generation
is not under `src/`; the kinds follow the spec's token enumeration
(section 3), which the later generation `token.h` in
`src/unnamed/part_002` corroborates.  Names
follow the C++ `Token::` members where Lean allows; `end'`, `then'`,
`repeat'` and `until'` stand for `Token::end`, `Token::then`,
`Token::repeat` and `Token::until`, and `mod`, `amp`, `lshift`,
`rshift`, `land` stand for the `%`, `&`, `<<`, `>>`, `&&` operator
tokens. -/
inductive TokKind where
  | identifier | number
  | constDecl | varDecl | procDecl | funcDecl
  | begin | end' | If | then' | Else | While | Do | repeat' | until' | odd
  | assign | equ | neq | lt | lte | gt | gte
  | add | sub | mul | div | mod
  | amp | lshift | rshift | land
  | lparen | rparen | comma | scomma | period
  | eos
deriving DecidableEq, Repr

/-- A token: a kind together with the `string_value` (identifiers) and
`number_value` (numeric literals) payloads of the C++ `Token`. -/
structure Token where
  kind : TokKind
  string_value : String
  number_value : Int
deriving DecidableEq, Repr

/-- Modelled from the spec: `SymValue::Kind` (from `symbol.h`, which
is not under `src/`; the spec's symbol-meaning record and the uses in
`pl0ccomp.h` fix it): a name denotes a constant, a variable
(`identifier`), a procedure or a function. -/
inductive SymKind where
  | constant | identifier | proc | function
deriving DecidableEq, Repr

/-- Modelled from the spec: a symbol-table entry `(kind, level,
value)` (`symbol.h` is not under `src/`). -/
structure SymValue where
  kind : SymKind
  level : Int
  value : Int
deriving DecidableEq, Repr

/-- Modelled from the spec: the symbol table, a multimap from names to
entries (`symbol.h` is not under `src/`; spec section 4.2), whose
`insert` appends and whose `equal_range` lists a name's entries in
insertion order (the C++11 `std::multimap` guarantee). -/
abbrev SymTable := List (String × SymValue)

/-- Compiler state: the remaining token stream (its head is the
current token), the symbol table, the emitted code, and the error
count and diagnostics of `PL0CComp::error`. -/
structure CState where
  toks : List Token
  symtbl : SymTable
  code : List Instr
  nErrors : Nat
  errs : List String
deriving DecidableEq, Repr

/-- The current token (`ts.current()`); past the end of input the
stream repeatedly yields the end-of-stream token. -/
def curTok (st : CState) : Token := st.toks.headD ⟨.eos, "", 0⟩

/-- The kind of the current token (`PL0CComp::current`). -/
def curKind (st : CState) : TokKind := (curTok st).kind

/-- Consume the current token (`PL0CComp::next`). -/
def advance (st : CState) : CState := { st with toks := st.toks.tail }

/-- `PL0CComp::error(s)`: record a diagnostic and increment the error
count. -/
def errorC (s : String) (st : CState) : CState :=
  { st with nErrors := st.nErrors + 1, errs := st.errs ++ [s] }

/-- `PL0CComp::error(s, t)`: diagnostic with a parameter. -/
def errorC2 (s t : String) (st : CState) : CState := errorC (s ++ " " ++ t) st

/-- `PL0CComp::accept(kind, get)`: report whether the current token has
the given kind, consuming it when `get` is set. -/
def accept (k : TokKind) (g : Bool) (st : CState) : Bool × CState :=
  if curKind st = k then (true, if g then advance st else st) else (false, st)

/-- `PL0CComp::expect(kind, get)`: `accept`, with a diagnostic on
mismatch. -/
def expect (k : TokKind) (g : Bool) (st : CState) : Bool × CState :=
  let r := accept k g st
  if r.1 then r else (false, errorC "expected" r.2)

/-- `PL0CComp::emit(op, level, addr)`: append an instruction and return
its address.  The instruction's fields pass through their `int8_t` and
`Word` types. -/
def emit (op : OpCode) (lvl : Int) (addr : Int) (st : CState) : Nat × CState :=
  (st.code.length, { st with code := st.code ++ [⟨op, wrap8 lvl, wrap32 addr⟩] })

/-- Overwrite the `addr` field of the instruction at index `i`
(the compiler's back-patching `(*code)[i].addr = a`). -/
def patchAddr (i : Nat) (a : Int) : List Instr → List Instr
  | [] => []
  | x :: r => if i = 0 then ⟨x.op, x.level, wrap32 a⟩ :: r
              else x :: patchAddr (i - 1) a r

/-- Back-patch the instruction at `i` in the compiler state. -/
def patch (i : Nat) (a : Int) (st : CState) : CState :=
  { st with code := patchAddr i a st.code }

/-- `symtbl.equal_range(name)`: the entries for a name, in insertion
order. -/
def matchesOf (name : String) (tbl : SymTable) : List (String × SymValue) :=
  tbl.filter (fun p => p.1 = name)

/-- `symtbl.insert(...)`: append an entry (a multimap keeps all entries
for a name, new ones after old ones). -/
def insertSym (e : String × SymValue) (st : CState) : CState :=
  { st with symtbl := st.symtbl ++ [e] }

/-- The "closest" scan of `PL0CComp::identifier` / `identStmt`: walk
the entries for a name and keep the one with the strictly greatest
level (the first of several equal-level entries wins). -/
def closestOf (c : String × SymValue) : List (String × SymValue) → String × SymValue
  | [] => c
  | e :: r => closestOf (if e.2.level > c.2.level then e else c) r

/-- Update the `value` field of the first entry matching a name and
level. -/
def setValueFirst (name : String) (lvl : Int) (v : Int) : SymTable → SymTable
  | [] => []
  | e :: r =>
    if e.1 = name ∧ e.2.level = lvl then (e.1, ⟨e.2.kind, e.2.level, v⟩) :: r
    else e :: setValueFirst name lvl v r

/-- Update the `value` field of the most recently inserted entry
matching a name and level — the entry the C++ `SymValue& val`
reference designates in `PL0CComp::block` (for a subroutine, the entry
`subDecl` just inserted). -/
def setValueLast (name : String) (lvl : Int) (v : Int) (tbl : SymTable) : SymTable :=
  (setValueFirst name lvl v tbl.reverse).reverse

/-- Repeated `error` calls — `PL0CComp::subDecl` reports one
redefinition diagnostic per same-level entry already in the table. -/
def errRepeat : Nat → String → String → CState → CState
  | 0, _, _, st => st
  | k + 1, s, t, st => errRepeat k s t (errorC2 s t st)

/-- `Token::lte | lt | equ | gt | gte | neq` to the emitted relational
opcode (the switch in `PL0CComp::condition`). -/
def condOp : TokKind → OpCode
  | .lte => .lte
  | .lt => .lt
  | .equ => .equ
  | .gt => .gt
  | .gte => .gte
  | _ => .neq

mutual

/-- `PL0CComp::identifier` (factor identifier): push a constant, push a
variable, or compile a function call.  A variable read emits the single
instruction `pushVar (level - L') offset` — in this generation
`pushVar` reads and pushes the variable's value (`src/pl0c/pl0c.h`). -/
def identifier : Nat → Int → CState → CState
  | 0, _, st => st
  | fuel + 1, level, st =>
    let name := (curTok st).string_value
    let st := advance st
    match matchesOf name st.symtbl with
    | [] => errorC2 "Undefined identifier" name st
    | c :: rest =>
      let closest := closestOf c rest
      if closest.2.kind = SymKind.constant then
        (emit .pushConst 0 closest.2.value st).2
      else if closest.2.kind = SymKind.identifier then
        (emit .pushVar (level - closest.2.level) closest.2.value st).2
      else if closest.2.kind = SymKind.function then
        let st := (expect .lparen true st).2
        let st := if ¬ (accept .rparen false st).1 then exprList fuel level st else st
        let st := (expect .rparen true st).2
        (emit .call (level - closest.2.level) closest.2.value st).2
      else errorC2 "Unknown symbol" name st

/-- `PL0CComp::factor`: identifier, number, or parenthesised
expression. -/
def factor : Nat → Int → CState → CState
  | 0, _, st => st
  | fuel + 1, level, st =>
    if (accept .identifier false st).1 then identifier fuel level st
    else if (accept .number false st).1 then
      let st := (emit .pushConst 0 (curTok st).number_value st).2
      (expect .number true st).2
    else
      let r := accept .lparen true st
      if r.1 then
        let st := expression fuel level r.2
        (expect .rparen true st).2
      else
        advance (errorC2 "factor syntax error expected ident num or expr but got" "" r.2)

/-- The operator loop of `PL0CComp::terminal`: only `*` and `/` are
accepted, each emitting its opcode after the second factor. -/
def termLoop : Nat → Int → CState → CState
  | 0, _, st => st
  | fuel + 1, level, st =>
    let k := curKind st
    if k = .mul ∨ k = .div then
      let st := advance st
      let st := factor fuel level st
      let st := if k = .mul then (emit .mul 0 0 st).2 else (emit .div 0 0 st).2
      termLoop fuel level st
    else st

/-- `PL0CComp::terminal`: `fact { ("*"|"/") fact }`. -/
def terminal : Nat → Int → CState → CState
  | 0, _, st => st
  | fuel + 1, level, st => termLoop fuel level (factor fuel level st)

/-- The operator loop of `PL0CComp::expression` (`+` and `-`). -/
def exprLoop : Nat → Int → CState → CState
  | 0, _, st => st
  | fuel + 1, level, st =>
    let k := curKind st
    if k = .add ∨ k = .sub then
      let st := advance st
      let st := terminal fuel level st
      let st := if k = .add then (emit .add 0 0 st).2 else (emit .sub 0 0 st).2
      exprLoop fuel level st
    else st

/-- `PL0CComp::expression`: optional unary sign, a terminal, then the
additive-operator loop.  Unary `-` emits `neg`; unary `+` emits
nothing. -/
def expression : Nat → Int → CState → CState
  | 0, _, st => st
  | fuel + 1, level, st =>
    let unary := curKind st
    let st := if unary = .add ∨ unary = .sub then advance st else st
    let st := terminal fuel level st
    let st := if unary = .sub then (emit .neg 0 0 st).2 else st
    exprLoop fuel level st

/-- The `expr { "," expr }` argument loops of `PL0CComp::identifier`
and `PL0CComp::callStmt`. -/
def exprList : Nat → Int → CState → CState
  | 0, _, st => st
  | fuel + 1, level, st =>
    let st := expression fuel level st
    let r := accept .comma true st
    if r.1 then exprList fuel level r.2 else r.2

end

/-- `PL0CComp::condition`: `odd expr` emits the dedicated `odd` opcode
after the expression; otherwise a relational operator between two
expressions emits the corresponding opcode. -/
def condition (fuel : Nat) (level : Int) (st : CState) : CState :=
  let r := accept .odd true st
  if r.1 then
    let st := expression fuel level r.2
    (emit .odd 0 0 st).2
  else
    let st := expression fuel level r.2
    let op := curKind st
    if op = .lte ∨ op = .lt ∨ op = .equ ∨ op = .gt ∨ op = .gte ∨ op = .neq then
      let st := expression fuel level (advance st)
      (emit (condOp op) 0 0 st).2
    else st

/-- `PL0CComp::assignStmt`: compile the right-hand side, then emit a
single `pop (level - L') offset` writing the target variable (or the
return-value slot `Frame::rValue = 3` when assigning to the enclosing
function's name); assigning to a constant or procedure is an error. -/
def assignStmt (fuel : Nat) (name : String) (val : SymValue) (level : Int)
    (st : CState) : CState :=
  let st := expression fuel level st
  match val.kind with
  | .identifier => (emit .pop (level - val.level) val.value st).2
  | .function => (emit .pop 0 3 st).2
  | .constant => errorC2 "Cant assign to a constant" name st
  | .proc => errorC2 "Cant assign to a procedure" name st

/-- `PL0CComp::callStmt`: compile the arguments, then emit
`call (level - L') addr` when the callee is a procedure. -/
def callStmt (fuel : Nat) (name : String) (val : SymValue) (level : Int)
    (st : CState) : CState :=
  let st := if ¬ (accept .rparen false st).1 then exprList fuel level st else st
  let st := (expect .rparen true st).2
  if val.kind ≠ SymKind.proc then errorC2 "Identifier is not a procedure" name st
  else (emit .call (level - val.level) val.value st).2

/-- `PL0CComp::identStmt`: look up the identifier (innermost entry
wins) and dispatch to assignment or procedure call. -/
def identStmt (fuel : Nat) (level : Int) (st : CState) : CState :=
  let name := (curTok st).string_value
  let st := advance st
  match matchesOf name st.symtbl with
  | [] => errorC2 "undefined variable" name st
  | c :: rest =>
    let closest := closestOf c rest
    let r := accept .assign true st
    if r.1 then assignStmt fuel closest.1 closest.2 level r.2
    else
      let r2 := accept .lparen true r.2
      if r2.1 then callStmt fuel closest.1 closest.2 level r2.2
      else errorC2 "identifier is not a variable or a procedure" name r2.2

mutual

/-- `PL0CComp::whileStmt`: head, condition, `jneq` forward, body,
`jump` back, patch the exit. -/
def whileStmt : Nat → Int → CState → CState
  | 0, _, st => st
  | fuel + 1, level, st =>
    let cond_pc := st.code.length
    let st := condition fuel level st
    let r := emit .jneq 0 0 st
    let jmp_pc := r.1
    let st := (expect .Do true r.2).2
    let st := statement fuel level st
    let st := (emit .jump 0 (cond_pc : Int) st).2
    patch jmp_pc (st.code.length : Int) st

/-- `PL0CComp::ifStmt`: condition, `jneq` forward, then-branch,
optional `jump` over the else-branch, patches. -/
def ifStmt : Nat → Int → CState → CState
  | 0, _, st => st
  | fuel + 1, level, st =>
    let st := condition fuel level st
    let r := emit .jneq 0 0 st
    let jmp_pc := r.1
    let st := (expect .then' true r.2).2
    let st := statement fuel level st
    let rE := accept .Else true st
    let hasElse := rE.1
    let rJ := if hasElse then emit .jump 0 0 rE.2 else (0, rE.2)
    let else_pc := rJ.1
    let st := patch jmp_pc (rJ.2.code.length : Int) rJ.2
    if hasElse then
      let st := statement fuel level st
      patch else_pc (st.code.length : Int) st
    else st

/-- `PL0CComp::repeatStmt`: head, body, `until`, condition, `jneq`
back to the head. -/
def repeatStmt : Nat → Int → CState → CState
  | 0, _, st => st
  | fuel + 1, level, st =>
    let loop_pc := st.code.length
    let st := statement fuel level st
    let st := (expect .until' true st).2
    let st := condition fuel level st
    (emit .jneq 0 (loop_pc : Int) st).2

/-- The `stmt { ";" stmt }` loop of the `begin ... end` branch. -/
def stmtSeq : Nat → Int → CState → CState
  | 0, _, st => st
  | fuel + 1, level, st =>
    let st := statement fuel level st
    let r := accept .scomma true st
    if r.1 then stmtSeq fuel level r.2 else r.2

/-- `PL0CComp::statement`: assignment/call, `begin`, `if`, `while`,
`repeat`, or the empty statement. -/
def statement : Nat → Int → CState → CState
  | 0, _, st => st
  | fuel + 1, level, st =>
    if (accept .identifier false st).1 then identStmt fuel level st
    else
      let rB := accept .begin true st
      if rB.1 then
        let st := stmtSeq fuel level rB.2
        (expect .end' true st).2
      else
        let rI := accept .If true rB.2
        if rI.1 then ifStmt fuel level rI.2
        else
          let rW := accept .While true rI.2
          if rW.1 then whileStmt fuel level rW.2
          else
            let rR := accept .repeat' true rW.2
            if rR.1 then repeatStmt fuel level rR.2
            else rR.2

end

/-- `PL0CComp::constDecl`: parse `ident = number`; a same-level entry
for the name is a redefinition error, otherwise the constant is
inserted.  Emits no code. -/
def constDecl (level : Int) (st : CState) : CState :=
  let name := (curTok st).string_value
  let st := (expect .identifier true st).2
  let st := (expect .assign true st).2
  let r := expect .number false st
  if r.1 then
    let number := (curTok r.2).number_value
    let st := advance r.2
    if (matchesOf name st.symtbl).any (fun p => p.2.level = level) then
      errorC2 "identifier has previously been defined" name st
    else insertSym (name, ⟨SymKind.constant, level, number⟩) st
  else r.2

/-- `PL0CComp::varDecl`: allocate the next local offset for a new
variable; a same-level entry for the name is a redefinition error (the
diagnostic keeps the source's spelling) and the offset is not
consumed. -/
def varDecl (offset : Int) (level : Int) (st : CState) : Int × CState :=
  let name := (curTok st).string_value
  let r := expect .identifier true st
  if r.1 then
    if (matchesOf name r.2.symtbl).any (fun p => p.2.level = level) then
      (offset, errorC2 "identifer has previously been defined" name r.2)
    else (offset + 1, insertSym (name, ⟨SymKind.identifier, level, offset⟩) r.2)
  else (offset, r.2)

/-- The formal-argument collection loop of `PL0CComp::subDecl`:
record names and count the offset down to `-n`. -/
def argsCollect : Nat → Int → CState → List String × Int × CState
  | 0, off, st => ([], off, st)
  | fuel + 1, off, st =>
    let name := (curTok st).string_value
    let off1 := off - 1
    let st := (accept .identifier true st).2
    let r := accept .comma true st
    if r.1 then
      let rec1 := argsCollect fuel off1 r.2
      (name :: rec1.1, rec1.2.1, rec1.2.2)
    else ([name], off1, r.2)

/-- Install the collected arguments at `level + 1` with offsets
`-n, ..., -1` in declaration order. -/
def insertArgs : List String → Int → Int → CState → CState
  | [], _, _, st => st
  | x :: r, off, lvl, st =>
    insertArgs r (off + 1) lvl (insertSym (x, ⟨SymKind.identifier, lvl, off⟩) st)

/-- The `do { constDecl } while (accept comma)` loop of
`PL0CComp::block`. -/
def constLoop : Nat → Int → CState → CState
  | 0, _, st => st
  | fuel + 1, level, st =>
    let st := constDecl level st
    let r := accept .comma true st
    if r.1 then constLoop fuel level r.2 else r.2

/-- The `do { dx = varDecl(dx) } while (accept comma)` loop of
`PL0CComp::block`. -/
def varLoop : Nat → Int → Int → CState → Int × CState
  | 0, dx, _, st => (dx, st)
  | fuel + 1, dx, level, st =>
    let r := varDecl dx level st
    let r2 := accept .comma true r.2
    if r2.1 then varLoop fuel r.1 level r2.2 else (r.1, r2.2)

mutual

/-- `PL0CComp::subDecl`: parse a procedure or function header, report
one redefinition error per existing same-level entry (the source does
not stop at the first, and inserts the new entry regardless), collect
the formal arguments at `level + 1` with offsets `-n ... -1`, and
compile the body block at `level + 1`. -/
def subDecl : Nat → Int → CState → CState
  | 0, _, st => st
  | fuel + 1, level, st =>
    let kind := curKind st
    let st := advance st
    let name := (curTok st).string_value
    let r := expect .identifier true st
    if r.1 then
      let dups := ((matchesOf name r.2.symtbl).filter (fun p => p.2.level = level)).length
      let st := errRepeat dups "identifier has previously been defined" name r.2
      let ekind := if kind = .procDecl then SymKind.proc else SymKind.function
      let st := insertSym (name, ⟨ekind, level, 0⟩) st
      let st := (expect .lparen true st).2
      let args :=
        if (accept .identifier false st).1 then argsCollect fuel 0 st
        else ([], 0, st)
      let st := insertArgs args.1 args.2.1 (level + 1) args.2.2
      let st := (expect .rparen true st).2
      let st := block fuel name level ekind (level + 1) (args.1.length : Int) st
      (expect .scomma true st).2
    else r.2

/-- The `while (procDecl or funcDecl) subDecl` loop of
`PL0CComp::block`. -/
def subLoop : Nat → Int → CState → CState
  | 0, _, st => st
  | fuel + 1, level, st =>
    if (accept .procDecl false st).1 ∨ (accept .funcDecl false st).1 then
      subLoop fuel level (subDecl fuel level st)
    else st

/-- `PL0CComp::block`: emit the entry trampoline `jump 0`, parse the
declarations (`dx` starts at the frame size 4 and each variable takes
the next offset), compile nested subroutines, emit `enter dx`, patch
the trampoline and the block's own symbol entry to the `enter`
address, compile the body statement, emit `ret nargs` (procedures) or
`reti nargs` (functions), and purge every symbol of this level. -/
def block : Nat → String → Int → SymKind → Int → Int → CState → CState
  | 0, _, _, _, _, _, st => st
  | fuel + 1, selfName, selfLevel, selfKind, level, nargs, st =>
    let rJ := emit .jump 0 0 st
    let jmp_pc := rJ.1
    let dx : Int := 4
    let rC := accept .constDecl true rJ.2
    let st :=
      if rC.1 then (expect .scomma true (constLoop fuel level rC.2)).2 else rC.2
    let rV := accept .varDecl true st
    let dxst :=
      if rV.1 then
        let r := varLoop fuel dx level rV.2
        (r.1, (expect .scomma true r.2).2)
      else (dx, rV.2)
    let st := subLoop fuel level dxst.2
    let rE := emit .enter 0 dxst.1 st
    let addr := rE.1
    let st := patch jmp_pc (addr : Int) rE.2
    let st := { st with symtbl := setValueLast selfName selfLevel (addr : Int) st.symtbl }
    let st := statement fuel level st
    let st :=
      if selfKind = SymKind.function then (emit .reti 0 nargs st).2
      else (emit .ret 0 nargs st).2
    { st with symtbl := st.symtbl.filter (fun p => p.2.level ≠ level) }

end

/-- `PL0CComp::run` on an already-opened token stream: the constructor
installs the bootstrap entry `("main", proc, 0, 0)`, `run` compiles the
top-level block at level 0 and expects the final period. -/
def compileProgram (fuel : Nat) (toks : List Token) : CState :=
  let st0 : CState := ⟨toks, [("main", ⟨SymKind.proc, 0, 0⟩)], [], 0, []⟩
  let st := block fuel "main" 0 SymKind.proc 0 0 st0
  (expect .period true st).2

end PL0CComp

namespace PL0CComp

/-- All symbol-table entries are at or below lexical level `L`
(the state of the table seen by any lookup inside a block at
nesting level `L`). -/
def Bounded (L : Int) (tbl : SymTable) : Prop := ∀ p ∈ tbl, p.2.level ≤ L

instance (L : Int) (tbl : SymTable) : Decidable (Bounded L tbl) := by
  unfold Bounded; infer_instance

/-- One compiler state extends another's diagnostics: the error count
never decreases and the diagnostic list only grows (every compiler
routine reports errors by appending; none are retracted). -/
def ErrExt (st st' : CState) : Prop :=
  st.nErrors ≤ st'.nErrors ∧ ∃ t, st'.errs = st.errs ++ t

/-- Token stream of the program `var a, b; .` — a block with two
locals and an empty body. -/
def c2Toks : List Token :=
  [⟨.varDecl, "", 0⟩, ⟨.identifier, "a", 0⟩, ⟨.comma, "", 0⟩,
   ⟨.identifier, "b", 0⟩, ⟨.scomma, "", 0⟩, ⟨.period, "", 0⟩]

end PL0CComp

/-! ### Basic lemmas about the machine model -/

namespace Interp

open Pl0c

@[simp] theorem vmres_bind_ok {α β : Type} (a : α) (f : α → VMRes β) :
    (VMRes.ok a >>= f) = f a := rfl

@[simp] theorem vmres_bind_err {α β : Type} (e : RunErr) (f : α → VMRes β) :
    (VMRes.error e >>= f) = VMRes.error e := rfl

@[simp] theorem vmres_pure {α : Type} (a : α) : (pure a : VMRes α) = VMRes.ok a := rfl

theorem getD_set_self :
    ∀ (l : List Int) (i : Nat) (v d : Int), i < l.length → (l.set i v).getD i d = v := by
  intro l
  induction l with
  | nil => intro i v d h; simp at h
  | cons x r ih =>
    intro i v d h
    cases i with
    | zero => rfl
    | succ j =>
      simp only [List.set, List.getD, List.get?]
      exact ih j v d (by simpa using h)

theorem getD_set_ne :
    ∀ (l : List Int) (i j : Nat) (v d : Int), i ≠ j → (l.set i v).getD j d = l.getD j d := by
  intro l
  induction l with
  | nil => intro i j v d _; cases i <;> rfl
  | cons x r ih =>
    intro i j v d h
    cases i with
    | zero =>
      cases j with
      | zero => exact absurd rfl h
      | succ k => rfl
    | succ m =>
      cases j with
      | zero => rfl
      | succ k =>
        simp only [List.set, List.getD, List.get?]
        exact ih m k v d (fun hc => h (by rw [hc]))

theorem wrap32_eq_of_range {x : Int} (h1 : -(2 ^ 31) ≤ x) (h2 : x < 2 ^ 31) :
    wrap32 x = x := by
  unfold wrap32
  omega

theorem wrap8_eq_of_range {x : Int} (h1 : -(2 ^ 7) ≤ x) (h2 : x < 2 ^ 7) :
    wrap8 x = x := by
  unfold wrap8
  omega

theorem u16_lt (x : Int) : u16 x < 2 ^ 16 := by
  unfold u16
  omega

theorem baseLoop_lt {stk : List Int} :
    ∀ (hops b : Nat) (r : Nat), b < 2 ^ 16 → baseLoop stk hops b = .ok r → r < 2 ^ 16 := by
  intro hops
  induction hops with
  | zero =>
    intro b r hb h
    simp only [baseLoop] at h
    cases h
    exact hb
  | succ n ih =>
    intro b r hb h
    simp only [baseLoop] at h
    cases hrd : rdI stk (b : Int) with
    | error e => rw [hrd] at h; cases h
    | ok v => rw [hrd] at h; exact ih (u16 v) r (u16_lt v) h

theorem base_lt {stk : List Int} {bp lvl : Int} {b : Nat}
    (h : base stk bp lvl = .ok b) : b < 2 ^ 16 :=
  baseLoop_lt (u16 lvl) (u16 bp) b (u16_lt bp) h

end Interp

namespace Interp

open Pl0c

/-- Full characterisation of one `call` dispatch step: the four header
words are written at `sp+1 .. sp+4` and the registers move to
`bp = sp+1`, `sp = sp+4`, `pc = addr`. -/
theorem call_step_eq (s : IState) (lvl addr : Int) (b : Nat)
    (hpc : 0 ≤ s.pc ∧ s.pc < (s.code.length : Int))
    (hsp : s.sp < (s.stack.length : Int))
    (hfetch : s.code.getD s.pc.toNat ⟨.halt, 0, 0⟩ = ⟨.call, lvl, addr⟩)
    (hlvl : wrap8 lvl = lvl) (haddr : wrap32 addr = addr)
    (hbase : base s.stack s.bp lvl = .ok b)
    (hlo : 0 ≤ s.sp + 1) (hhi : s.sp + 4 < (s.stack.length : Int)) :
    step s = .ok { s with
      stack := (((s.stack.set (s.sp + 1).toNat (wrap32 (b : Int))).set
        (s.sp + 1 + 1).toNat (wrap32 s.bp)).set
        (s.sp + 1 + 2).toNat (wrap32 (s.pc + 1))).set
        (s.sp + 1 + 3).toNat 0,
      bp := s.sp + 1, sp := s.sp + 4, pc := addr } := by
  have hsp' : ¬ (s.sp ≠ -1 ∧ ¬ (s.sp < (s.stack.length : Int))) := by
    intro h; exact h.2 hsp
  unfold step
  rw [if_neg (not_not_intro hpc), if_neg hsp']
  simp only [hfetch, normInstr, hlvl, haddr, hbase, vmres_bind_ok]
  unfold wrI
  simp only [FrameBase, FrameOldBp, FrameRetAddr, FrameRetVal, FrameSize, add_zero,
    List.length_set]
  rw [if_pos (by constructor <;> omega)]
  simp only [vmres_bind_ok, List.length_set]
  rw [if_pos (by constructor <;> omega)]
  simp only [vmres_bind_ok, List.length_set]
  rw [if_pos (by constructor <;> omega)]
  simp only [vmres_bind_ok, List.length_set]
  rw [if_pos (by constructor <;> omega)]
  simp only [vmres_bind_ok, vmres_pure]

/-- Full characterisation of one `ret` dispatch step (`Interp::ret`):
`sp = bp - 1 - nargs`, `pc` and `bp` reloaded from the frame header. -/
theorem ret_step_eq (s : IState) (lvl nargs rpc rbp : Int)
    (hpc : 0 ≤ s.pc ∧ s.pc < (s.code.length : Int))
    (hsp : s.sp < (s.stack.length : Int))
    (hfetch : s.code.getD s.pc.toNat ⟨.halt, 0, 0⟩ = ⟨.ret, lvl, nargs⟩)
    (hnargs : wrap32 nargs = nargs)
    (h2 : rdI s.stack (s.bp + FrameRetAddr) = .ok rpc)
    (h1 : rdI s.stack (s.bp + FrameOldBp) = .ok rbp) :
    step s = .ok { s with sp := s.bp - 1 - nargs, pc := rpc, bp := rbp } := by
  have hsp' : ¬ (s.sp ≠ -1 ∧ ¬ (s.sp < (s.stack.length : Int))) := by
    intro h; exact h.2 hsp
  unfold step
  rw [if_neg (not_not_intro hpc), if_neg hsp']
  simp only [hfetch, normInstr, hnargs, h2, h1, vmres_bind_ok, vmres_pure]

end Interp

namespace Interp

open Pl0c

/-- The header words and register values produced by a `call` step, as
read back from the new frame (shared support for the frame-header and
call/ret round-trip properties). -/
theorem call_step_facts (s : IState) (lvl addr : Int) (b : Nat)
    (hpc : 0 ≤ s.pc ∧ s.pc < (s.code.length : Int))
    (hsp : s.sp < (s.stack.length : Int))
    (hfetch : s.code.getD s.pc.toNat ⟨.halt, 0, 0⟩ = ⟨.call, lvl, addr⟩)
    (hlvl : wrap8 lvl = lvl) (haddr : wrap32 addr = addr)
    (hbase : base s.stack s.bp lvl = .ok b)
    (hlo : 0 ≤ s.sp + 1) (hhi : s.sp + 4 < (s.stack.length : Int))
    (hbp0 : 0 ≤ s.bp) (hbp1 : s.bp < 2 ^ 31) (hpc1 : s.pc + 1 < 2 ^ 31) :
    ∃ t, step s = .ok t ∧
      t.bp = s.sp + 1 ∧ t.sp = s.sp + 4 ∧ t.pc = addr ∧ t.code = s.code ∧
      rdI t.stack (t.bp + FrameBase) = .ok (b : Int) ∧
      rdI t.stack (t.bp + FrameOldBp) = .ok s.bp ∧
      rdI t.stack (t.bp + FrameRetAddr) = .ok (s.pc + 1) ∧
      rdI t.stack (t.bp + FrameRetVal) = .ok 0 := by
  have hb16 : b < 2 ^ 16 := base_lt hbase
  have hwb : wrap32 (b : Int) = (b : Int) := wrap32_eq_of_range (by omega) (by omega)
  have hwbp : wrap32 s.bp = s.bp := wrap32_eq_of_range (by omega) (by omega)
  have hwpc : wrap32 (s.pc + 1) = s.pc + 1 := wrap32_eq_of_range (by omega) (by omega)
  refine ⟨_, call_step_eq s lvl addr b hpc hsp hfetch hlvl haddr hbase hlo hhi,
    rfl, rfl, rfl, rfl, ?_, ?_, ?_, ?_⟩
  · unfold rdI
    simp only [List.length_set, FrameBase, add_zero]
    rw [if_pos (by constructor <;> omega)]
    rw [getD_set_ne _ _ _ _ _ (by omega), getD_set_ne _ _ _ _ _ (by omega),
        getD_set_ne _ _ _ _ _ (by omega),
        getD_set_self _ _ _ _ (by omega), hwb]
  · unfold rdI
    simp only [List.length_set, FrameOldBp]
    rw [if_pos (by constructor <;> omega)]
    rw [getD_set_ne _ _ _ _ _ (by omega), getD_set_ne _ _ _ _ _ (by omega),
        getD_set_self _ _ _ _ (by (try simp only [List.length_set]); omega), hwbp]
  · unfold rdI
    simp only [List.length_set, FrameRetAddr]
    rw [if_pos (by constructor <;> omega)]
    rw [getD_set_ne _ _ _ _ _ (by omega),
        getD_set_self _ _ _ _ (by (try simp only [List.length_set]); omega), hwpc]
  · unfold rdI
    simp only [List.length_set, FrameRetVal]
    rw [if_pos (by constructor <;> omega)]
    rw [getD_set_self _ _ _ _ (by (try simp only [List.length_set]); omega)]

/-- Claim C3: immediately after the interpreter executes a
`call lvl addr` instruction from a state with stack pointer `s.sp`,
the new frame header `stack[bp..bp+3]` holds
`(base(lvl), caller bp, saved pc, 0)` — the saved pc being the index
of the instruction following the call — and the registers satisfy
`bp = sp+1`, `sp = sp+4`, `pc = addr`.  The range hypotheses make the
32-bit stores lossless and keep the frame inside the stack vector. -/
theorem c3_call_frame_header (s : IState) (lvl addr : Int) (b : Nat)
    (hpc : 0 ≤ s.pc ∧ s.pc < (s.code.length : Int))
    (hsp : s.sp < (s.stack.length : Int))
    (hfetch : s.code.getD s.pc.toNat ⟨.halt, 0, 0⟩ = ⟨.call, lvl, addr⟩)
    (hlvl : wrap8 lvl = lvl) (haddr : wrap32 addr = addr)
    (hbase : base s.stack s.bp lvl = .ok b)
    (hlo : 0 ≤ s.sp + 1) (hhi : s.sp + 4 < (s.stack.length : Int))
    (hbp0 : 0 ≤ s.bp) (hbp1 : s.bp < 2 ^ 31) (hpc1 : s.pc + 1 < 2 ^ 31) :
    ∃ t, step s = .ok t ∧
      t.bp = s.sp + 1 ∧ t.sp = s.sp + 4 ∧ t.pc = addr ∧ t.code = s.code ∧
      rdI t.stack (t.bp + FrameBase) = .ok (b : Int) ∧
      rdI t.stack (t.bp + FrameOldBp) = .ok s.bp ∧
      rdI t.stack (t.bp + FrameRetAddr) = .ok (s.pc + 1) ∧
      rdI t.stack (t.bp + FrameRetVal) = .ok 0 :=
  call_step_facts s lvl addr b hpc hsp hfetch hlvl haddr hbase hlo hhi hbp0 hbp1 hpc1

/-- Witness for C3 at a concrete machine: `call 0 1` from the reset
state of an 8-word stack. -/
theorem c3_witness :
    ∃ t, step ⟨[⟨.call, 0, 1⟩, ⟨.ret, 0, 0⟩], [0, 0, 0, 0, -1, -1, -1, -1], 0, 0, 3⟩ =
        .ok t ∧
      t.bp = 4 ∧ t.sp = 7 ∧ t.pc = 1 ∧ t.code = [⟨.call, 0, 1⟩, ⟨.ret, 0, 0⟩] ∧
      rdI t.stack (t.bp + FrameBase) = .ok 0 ∧
      rdI t.stack (t.bp + FrameOldBp) = .ok 0 ∧
      rdI t.stack (t.bp + FrameRetAddr) = .ok 1 ∧
      rdI t.stack (t.bp + FrameRetVal) = .ok 0 :=
  c3_call_frame_header ⟨[⟨.call, 0, 1⟩, ⟨.ret, 0, 0⟩], [0, 0, 0, 0, -1, -1, -1, -1], 0, 0, 3⟩
    0 1 0 (by decide) (by decide) (by decide) (by decide) (by decide) (by decide)
    (by decide) (by decide) (by decide) (by decide) (by decide)

end Interp

namespace Interp

open Pl0c

/-- Claim C4: for a matching call/ret pair — a `call` step from `s`
producing `t`, and a later state `u` at a `ret nargs` instruction whose
frame base and frame header words are those the call wrote — executing
the `ret` restores `bp` to its pre-call value, sets `sp` to its
pre-call value minus `nargs`, and sets `pc` to the instruction after
the call. -/
theorem c4_call_ret_roundtrip (s t u : IState) (lvl addr lvl2 nargs : Int) (b : Nat)
    (hpc : 0 ≤ s.pc ∧ s.pc < (s.code.length : Int))
    (hsp : s.sp < (s.stack.length : Int))
    (hfetch : s.code.getD s.pc.toNat ⟨.halt, 0, 0⟩ = ⟨.call, lvl, addr⟩)
    (hlvl : wrap8 lvl = lvl) (haddr : wrap32 addr = addr)
    (hbase : base s.stack s.bp lvl = .ok b)
    (hlo : 0 ≤ s.sp + 1) (hhi : s.sp + 4 < (s.stack.length : Int))
    (hbp0 : 0 ≤ s.bp) (hbp1 : s.bp < 2 ^ 31) (hpc1 : s.pc + 1 < 2 ^ 31)
    (hstep : step s = .ok t)
    (hupc : 0 ≤ u.pc ∧ u.pc < (u.code.length : Int))
    (husp : u.sp < (u.stack.length : Int))
    (hufetch : u.code.getD u.pc.toNat ⟨.halt, 0, 0⟩ = ⟨.ret, lvl2, nargs⟩)
    (hnargs : wrap32 nargs = nargs)
    (hubp : u.bp = t.bp)
    (hdr1 : rdI u.stack (u.bp + FrameOldBp) = rdI t.stack (t.bp + FrameOldBp))
    (hdr2 : rdI u.stack (u.bp + FrameRetAddr) = rdI t.stack (t.bp + FrameRetAddr)) :
    ∃ v, step u = .ok v ∧ v.bp = s.bp ∧ v.sp = s.sp - nargs ∧ v.pc = s.pc + 1 := by
  obtain ⟨T, hT, hTbp, hTsp, hTpc, hTcode, hB, hOld, hRet, hV⟩ :=
    call_step_facts s lvl addr b hpc hsp hfetch hlvl haddr hbase hlo hhi hbp0 hbp1 hpc1
  rw [hstep] at hT
  injection hT with hT
  subst hT
  rw [hOld] at hdr1
  rw [hRet] at hdr2
  refine ⟨_, ret_step_eq u lvl2 nargs (s.pc + 1) s.bp hupc husp hufetch hnargs hdr2 hdr1,
    rfl, ?_, rfl⟩
  show u.bp - 1 - nargs = s.sp - nargs
  rw [hubp, hTbp]
  ring

/-- Witness for C4: the concrete machine of the C3 witness — `call 0 1`
followed immediately by `ret 0 0` — returns to `bp = 0`, `sp = 3`,
`pc = 1`. -/
theorem c4_witness :
    ∃ v, step ⟨[⟨.call, 0, 1⟩, ⟨.ret, 0, 0⟩], [0, 0, 0, 0, 0, 0, 1, 0], 1, 4, 7⟩ =
        .ok v ∧ v.bp = 0 ∧ v.sp = 3 - 0 ∧ v.pc = 0 + 1 :=
  c4_call_ret_roundtrip
    ⟨[⟨.call, 0, 1⟩, ⟨.ret, 0, 0⟩], [0, 0, 0, 0, -1, -1, -1, -1], 0, 0, 3⟩
    ⟨[⟨.call, 0, 1⟩, ⟨.ret, 0, 0⟩], [0, 0, 0, 0, 0, 0, 1, 0], 1, 4, 7⟩
    ⟨[⟨.call, 0, 1⟩, ⟨.ret, 0, 0⟩], [0, 0, 0, 0, 0, 0, 1, 0], 1, 4, 7⟩
    0 1 0 0 0
    (by decide) (by decide) (by decide) (by decide) (by decide) (by decide)
    (by decide) (by decide) (by decide) (by decide) (by decide) (by decide)
    (by decide) (by decide) (by decide) (by decide) (by decide) (by decide)
    (by decide)

end Interp

namespace Interp

open Pl0c PL0CComp

/-- Claim C2 counterexample: executing `enter 6` (as the compiler
emits for a block with two locals: `dx = 4 + 2`) from `sp = 3` leaves
`sp = 9` — the stack pointer increases by `dx = 6`, not by
`dx - 4 = 2` as the claim states. -/
theorem c2_counterexample :
    step ⟨[⟨.enter, 0, 6⟩], [0, 0, 0, 0, -1, -1, -1, -1, -1, -1], 0, 0, 3⟩ =
      .ok ⟨[⟨.enter, 0, 6⟩], [0, 0, 0, 0, -1, -1, -1, -1, -1, -1], 1, 0, 9⟩ ∧
    ¬ ((9 : Int) = 3 + (6 - 4)) := by decide

/-- Claim C2 as amended: for every `enter dx` the interpreter executes,
the stack pointer increases by exactly `dx` (the dispatch runs
`sp += ir.addr`, with no `- 4` adjustment; the four header words
allocated by `call` stay below the `dx` freshly reserved words), where
`dx` is the total frame size the compiler placed in the instruction —
the header size 4 plus the number of locals, as the compilation of
`var a, b; .` shows with its `enter 0 6`. -/
theorem c2_enter_adds_dx (s : IState) (lvl dx : Int)
    (hpc : 0 ≤ s.pc ∧ s.pc < (s.code.length : Int))
    (hsp : s.sp < (s.stack.length : Int))
    (hfetch : s.code.getD s.pc.toNat ⟨.halt, 0, 0⟩ = ⟨.enter, lvl, dx⟩)
    (hdx : wrap32 dx = dx) :
    step s = .ok { s with sp := s.sp + dx, pc := s.pc + 1 } ∧
    (compileProgram 9 c2Toks).code.getD 1 ⟨.halt, 0, 0⟩ = ⟨.enter, 0, 6⟩ := by
  constructor
  · have hsp' : ¬ (s.sp ≠ -1 ∧ ¬ (s.sp < (s.stack.length : Int))) := by
      intro h; exact h.2 hsp
    unfold step
    rw [if_neg (not_not_intro hpc), if_neg hsp']
    simp only [hfetch, normInstr, hdx]
  · decide

/-- Witness for the amended C2 at a concrete machine and program. -/
theorem c2_witness :
    step ⟨[⟨.enter, 0, 6⟩], [0, 0, 0, 0, -1, -1, -1, -1, -1, -1], 0, 0, 3⟩ =
      .ok ⟨[⟨.enter, 0, 6⟩], [0, 0, 0, 0, -1, -1, -1, -1, -1, -1], 1, 0, 9⟩ ∧
    (compileProgram 9 c2Toks).code.getD 1 ⟨.halt, 0, 0⟩ = ⟨.enter, 0, 6⟩ :=
  c2_enter_adds_dx ⟨[⟨.enter, 0, 6⟩], [0, 0, 0, 0, -1, -1, -1, -1, -1, -1], 0, 0, 3⟩
    0 6 (by decide) (by decide) (by decide) (by decide)

end Interp

namespace Interp

open Pl0c

/-- Claim C8 counterexample: running
`pushConst 5; pushConst 0; div` from the reset state performs the
division with a zero divisor — undefined behaviour, with no runtime
diagnostic issued by the interpreter (contrast the unknown-opcode
branch, the only one that prints an error): the claim's "reports a
runtime error" does not hold. -/
theorem c8_counterexample :
    (runStates 9 ⟨[⟨.pushConst, 0, 5⟩, ⟨.pushConst, 0, 0⟩, ⟨.div, 0, 0⟩],
        [0, 0, 0, 0, -1, -1, -1, -1], 0, 0, 3⟩).2 = .error .divZeroUB ∧
    isReported .divZeroUB = false := by decide

/-- Claim C8 as amended: when the interpreter executes a `div` or `rem`
instruction whose divisor (top of stack) is 0, it performs the division
unchecked — the dispatch contains no zero test, so the behaviour is
undefined (the spec notes the implementation may trap) — and the
interpreter itself reports no runtime diagnostic for it. -/
theorem c8_div_zero_unchecked (s : IState) (op : OpCode) (lvl addr a : Int)
    (hpc : 0 ≤ s.pc ∧ s.pc < (s.code.length : Int))
    (hsp : s.sp < (s.stack.length : Int))
    (hop : op = .div ∨ op = .rem)
    (hfetch : s.code.getD s.pc.toNat ⟨.halt, 0, 0⟩ = ⟨op, lvl, addr⟩)
    (ha : rdI s.stack (s.sp - 1) = .ok a)
    (hb : rdI s.stack s.sp = .ok 0) :
    step s = .error .divZeroUB ∧ isReported .divZeroUB = false := by
  have hsp' : ¬ (s.sp ≠ -1 ∧ ¬ (s.sp < (s.stack.length : Int))) := by
    intro h; exact h.2 hsp
  refine ⟨?_, rfl⟩
  unfold step
  rw [if_neg (not_not_intro hpc), if_neg hsp']
  rcases hop with hop | hop <;>
    simp only [hfetch, hop, normInstr, binop, ha, hb, vmres_bind_ok, if_pos rfl,
      if_true, vmres_bind_err]

/-- Witness for the amended C8: a `div` fetched with divisor 0 on the
stack top. -/
theorem c8_witness :
    step ⟨[⟨.div, 0, 0⟩], [0, 0, 0, 0, 5, 0, -1, -1], 0, 0, 5⟩ = .error .divZeroUB ∧
    isReported .divZeroUB = false :=
  c8_div_zero_unchecked ⟨[⟨.div, 0, 0⟩], [0, 0, 0, 0, 5, 0, -1, -1], 0, 0, 5⟩
    .div 0 0 5 (by decide) (by decide) (Or.inl rfl) (by decide) (by decide) (by decide)

end Interp

namespace Interp

open Pl0c

theorem map_const_neg_one (l : List Int) :
    l.map (fun _ => (-1 : Int)) = List.replicate l.length (-1) := by
  induction l with
  | nil => rfl
  | cons x r ih => simp only [List.map, List.length_cons, List.replicate_succ, ih]

theorem getD_replicate (a d : Int) :
    ∀ (n i : Nat), i < n → (List.replicate n a).getD i d = a := by
  intro n
  induction n with
  | zero => intro i h; omega
  | succ m ih =>
    intro i h
    cases i with
    | zero => rfl
    | succ j =>
      simp only [List.replicate_succ, List.getD, List.get?]
      exact ih j (by omega)

/-- Claim C10: `Interp::operator()` first overwrites every stack cell
with `-1`, then sets `stack[0..3] = 0`, `pc = 0`, `bp = 0`, `sp = 3`;
consequently two invocations on the same instruction vector from any
two stack histories of the same capacity start from identical states,
pass through identical machine-state sequences, and return the same
cycle count. -/
theorem c10_run_deterministic (h1 h2 : List Int) (p : List Instr) (fuel : Nat)
    (hlen : h1.length = h2.length) (h4 : 4 ≤ h1.length) :
    opCall h1 p = opCall h2 p ∧
    runStates fuel (opCall h1 p) = runStates fuel (opCall h2 p) ∧
    (opCall h1 p).pc = 0 ∧ (opCall h1 p).bp = 0 ∧ (opCall h1 p).sp = 3 ∧
    (∀ i : Nat, i < 4 → (opCall h1 p).stack.getD i 0 = 0) ∧
    (∀ i : Nat, i < h1.length → 4 ≤ i → (opCall h1 p).stack.getD i 0 = -1) := by
  have heq : opCall h1 p = opCall h2 p := by
    simp only [opCall, resetStack, map_const_neg_one, hlen]
  refine ⟨heq, by rw [heq], rfl, rfl, rfl, ?_, ?_⟩
  · intro i hi
    show (resetStack (h1.map (fun _ => (-1 : Int)))).getD i 0 = 0
    unfold resetStack
    rw [map_const_neg_one]
    interval_cases i
    · rw [getD_set_ne _ _ _ _ _ (by omega), getD_set_ne _ _ _ _ _ (by omega),
        getD_set_ne _ _ _ _ _ (by omega),
        getD_set_self _ _ _ _ (by simp only [List.length_replicate]; omega)]
    · rw [getD_set_ne _ _ _ _ _ (by omega), getD_set_ne _ _ _ _ _ (by omega),
        getD_set_self _ _ _ _ (by simp only [List.length_set, List.length_replicate]; omega)]
    · rw [getD_set_ne _ _ _ _ _ (by omega),
        getD_set_self _ _ _ _ (by simp only [List.length_set, List.length_replicate]; omega)]
    · rw [getD_set_self _ _ _ _ (by simp only [List.length_set, List.length_replicate]; omega)]
  · intro i hi hi4
    show (resetStack (h1.map (fun _ => (-1 : Int)))).getD i 0 = -1
    unfold resetStack
    rw [map_const_neg_one]
    rw [getD_set_ne _ _ _ _ _ (by omega), getD_set_ne _ _ _ _ _ (by omega),
      getD_set_ne _ _ _ _ _ (by omega), getD_set_ne _ _ _ _ _ (by omega),
      getD_replicate _ _ _ _ hi]

/-- Witness for C10: two different 5-word stack histories, one-jump
program. -/
theorem c10_witness :
    opCall [5, 6, 7, 8, 9] [⟨.jump, 0, 0⟩] = opCall [1, 2, 3, 4, 5] [⟨.jump, 0, 0⟩] ∧
    runStates 3 (opCall [5, 6, 7, 8, 9] [⟨.jump, 0, 0⟩]) =
      runStates 3 (opCall [1, 2, 3, 4, 5] [⟨.jump, 0, 0⟩]) ∧
    (opCall [5, 6, 7, 8, 9] [⟨.jump, 0, 0⟩]).pc = 0 ∧
    (opCall [5, 6, 7, 8, 9] [⟨.jump, 0, 0⟩]).bp = 0 ∧
    (opCall [5, 6, 7, 8, 9] [⟨.jump, 0, 0⟩]).sp = 3 ∧
    (∀ i : Nat, i < 4 → (opCall [5, 6, 7, 8, 9] [⟨.jump, 0, 0⟩]).stack.getD i 0 = 0) ∧
    (∀ i : Nat, i < ([5, 6, 7, 8, 9] : List Int).length → 4 ≤ i →
      (opCall [5, 6, 7, 8, 9] [⟨.jump, 0, 0⟩]).stack.getD i 0 = -1) :=
  c10_run_deterministic [5, 6, 7, 8, 9] [1, 2, 3, 4, 5] [⟨.jump, 0, 0⟩] 3
    (by decide) (by decide)

end Interp

namespace PL0CComp

open Pl0c

/-! ### Compiler-state bookkeeping lemmas -/

@[simp] theorem wrap8_zero : wrap8 0 = 0 := by decide

@[simp] theorem wrap32_zero : wrap32 0 = 0 := by decide

@[simp] theorem advance_symtbl (st : CState) : (advance st).symtbl = st.symtbl := rfl

@[simp] theorem advance_code (st : CState) : (advance st).code = st.code := rfl

@[simp] theorem advance_nErrors (st : CState) : (advance st).nErrors = st.nErrors := rfl

@[simp] theorem errorC_symtbl (s : String) (st : CState) : (errorC s st).symtbl = st.symtbl := rfl

@[simp] theorem errorC_code (s : String) (st : CState) : (errorC s st).code = st.code := rfl

@[simp] theorem errorC_toks (s : String) (st : CState) : (errorC s st).toks = st.toks := rfl

@[simp] theorem errorC2_symtbl (s t : String) (st : CState) : (errorC2 s t st).symtbl = st.symtbl := rfl

@[simp] theorem errorC2_code (s t : String) (st : CState) : (errorC2 s t st).code = st.code := rfl

@[simp] theorem errorC2_toks (s t : String) (st : CState) : (errorC2 s t st).toks = st.toks := rfl

@[simp] theorem emit_symtbl (op : OpCode) (l a : Int) (st : CState) :
    ((emit op l a st).2).symtbl = st.symtbl := rfl

@[simp] theorem emit_code (op : OpCode) (l a : Int) (st : CState) :
    ((emit op l a st).2).code = st.code ++ [⟨op, wrap8 l, wrap32 a⟩] := rfl

@[simp] theorem emit_toks (op : OpCode) (l a : Int) (st : CState) :
    ((emit op l a st).2).toks = st.toks := rfl

@[simp] theorem emit_nErrors (op : OpCode) (l a : Int) (st : CState) :
    ((emit op l a st).2).nErrors = st.nErrors := rfl

@[simp] theorem patch_symtbl (i : Nat) (a : Int) (st : CState) :
    (patch i a st).symtbl = st.symtbl := rfl

@[simp] theorem patch_toks (i : Nat) (a : Int) (st : CState) :
    (patch i a st).toks = st.toks := rfl

@[simp] theorem patch_nErrors (i : Nat) (a : Int) (st : CState) :
    (patch i a st).nErrors = st.nErrors := rfl

@[simp] theorem insertSym_toks (e : String × SymValue) (st : CState) :
    (insertSym e st).toks = st.toks := rfl

@[simp] theorem insertSym_code (e : String × SymValue) (st : CState) :
    (insertSym e st).code = st.code := rfl

@[simp] theorem insertSym_nErrors (e : String × SymValue) (st : CState) :
    (insertSym e st).nErrors = st.nErrors := rfl

theorem accept_pos {st : CState} {k : TokKind} (g : Bool) (h : curKind st = k) :
    accept k g st = (true, if g then advance st else st) := by
  simp [accept, h]

theorem accept_neg {st : CState} {k : TokKind} (g : Bool) (h : curKind st ≠ k) :
    accept k g st = (false, st) := by
  simp [accept, h]

@[simp] theorem accept_symtbl (k : TokKind) (g : Bool) (st : CState) :
    ((accept k g st).2).symtbl = st.symtbl := by
  unfold accept
  by_cases h : curKind st = k <;> by_cases hg : g <;> simp [h, hg]

@[simp] theorem accept_code (k : TokKind) (g : Bool) (st : CState) :
    ((accept k g st).2).code = st.code := by
  unfold accept
  by_cases h : curKind st = k <;> by_cases hg : g <;> simp [h, hg]

@[simp] theorem accept_nErrors (k : TokKind) (g : Bool) (st : CState) :
    ((accept k g st).2).nErrors = st.nErrors := by
  unfold accept
  by_cases h : curKind st = k <;> by_cases hg : g <;> simp [h, hg]

@[simp] theorem expect_symtbl (k : TokKind) (g : Bool) (st : CState) :
    ((expect k g st).2).symtbl = st.symtbl := by
  unfold expect
  by_cases h : (accept k g st).1 <;> simp [h]

@[simp] theorem expect_code (k : TokKind) (g : Bool) (st : CState) :
    ((expect k g st).2).code = st.code := by
  unfold expect
  by_cases h : (accept k g st).1 <;> simp [h]

@[simp] theorem errRepeat_toks (k : Nat) (s t : String) (st : CState) :
    (errRepeat k s t st).toks = st.toks := by
  induction k generalizing st with
  | zero => rfl
  | succ n ih => simp [errRepeat, ih]

@[simp] theorem errRepeat_symtbl (k : Nat) (s t : String) (st : CState) :
    (errRepeat k s t st).symtbl = st.symtbl := by
  induction k generalizing st with
  | zero => rfl
  | succ n ih => simp [errRepeat, ih]

@[simp] theorem errRepeat_code (k : Nat) (s t : String) (st : CState) :
    (errRepeat k s t st).code = st.code := by
  induction k generalizing st with
  | zero => rfl
  | succ n ih => simp [errRepeat, ih]

@[simp] theorem errRepeat_nErrors (k : Nat) (s t : String) (st : CState) :
    (errRepeat k s t st).nErrors = st.nErrors + k := by
  induction k generalizing st with
  | zero => rfl
  | succ n ih => simp [errRepeat, ih, errorC2, errorC]; omega

end PL0CComp

namespace PL0CComp

open Pl0c

/-- Claim C1 counterexample: compiling the factor `x` (a variable at
level 0, offset 4) emits the single instruction `pushVar 0 4` with no
`eval` after it, and compiling the statement `x = 1` emits
`pushConst 1; pop 0 4` — no `pushVar` of the target and no `assign` —
contradicting the claim's `PushVar`+`Eval` / rhs+`PushVar`+`Assign`
emission patterns. -/
theorem c1_counterexample :
    ((factor 9 0 ⟨[⟨.identifier, "x", 0⟩],
        [("x", ⟨SymKind.identifier, 0, 4⟩)], [], 0, []⟩).code
      = [⟨.pushVar, 0, 4⟩]) ∧
    (OpCode.eval ∉ (factor 9 0 ⟨[⟨.identifier, "x", 0⟩],
        [("x", ⟨SymKind.identifier, 0, 4⟩)], [], 0, []⟩).code.map Instr.op) ∧
    ((statement 9 0 ⟨[⟨.identifier, "x", 0⟩, ⟨.assign, "", 0⟩, ⟨.number, "", 1⟩],
        [("x", ⟨SymKind.identifier, 0, 4⟩)], [], 0, []⟩).code.map Instr.op
      = [.pushConst, .pop]) ∧
    (OpCode.pushVar ∉ (statement 9 0 ⟨[⟨.identifier, "x", 0⟩, ⟨.assign, "", 0⟩, ⟨.number, "", 1⟩],
        [("x", ⟨SymKind.identifier, 0, 4⟩)], [], 0, []⟩).code.map Instr.op) ∧
    (OpCode.assign ∉ (statement 9 0 ⟨[⟨.identifier, "x", 0⟩, ⟨.assign, "", 0⟩, ⟨.number, "", 1⟩],
        [("x", ⟨SymKind.identifier, 0, 4⟩)], [], 0, []⟩).code.map Instr.op) := by decide

/-- Claim C1 as amended: a variable read compiled as a factor emits
the single instruction `pushVar (L - L') offset` and nothing else (in
this generation `pushVar` reads and pushes the value; no `eval`
exists), and an assignment emits the code for the right-hand side
followed by the single instruction `pop (L - L') offset`, which pops
the value and writes the variable (no address push, no `assign`). -/
theorem c1_var_read_and_assign_emission (f : Nat) (level : Int) (st : CState)
    (c : String × SymValue) (rest : List (String × SymValue))
    (g : Nat) (name2 : String) (val : SymValue) (lv : Int) (st2 : CState)
    (hm : matchesOf (curTok st).string_value st.symtbl = c :: rest)
    (hkind : (closestOf c rest).2.kind = SymKind.identifier)
    (hv : val.kind = SymKind.identifier) :
    ((identifier (f + 1) level st).code =
      st.code ++ [⟨.pushVar, wrap8 (level - (closestOf c rest).2.level),
                   wrap32 (closestOf c rest).2.value⟩]) ∧
    ((assignStmt g name2 val lv st2).code =
      (expression g lv st2).code ++ [⟨.pop, wrap8 (lv - val.level), wrap32 val.value⟩]) := by
  constructor
  · simp only [identifier, advance, hm]
    rw [if_neg (by rw [hkind]; intro hc; cases hc), if_pos hkind]
    rfl
  · simp only [assignStmt, hv]
    rfl

/-- Witness for the amended C1 at the concrete factor `x` and
statement `x = 1`. -/
theorem c1_witness :
    ((identifier 9 0 ⟨[⟨.identifier, "x", 0⟩],
        [("x", ⟨SymKind.identifier, 0, 4⟩)], [], 0, []⟩).code
      = [] ++ [⟨.pushVar, wrap8 (0 - 0), wrap32 4⟩]) ∧
    ((assignStmt 9 "x" ⟨SymKind.identifier, 0, 4⟩ 0
        ⟨[⟨.number, "", 1⟩], [("x", ⟨SymKind.identifier, 0, 4⟩)], [], 0, []⟩).code
      = (expression 9 0 ⟨[⟨.number, "", 1⟩],
          [("x", ⟨SymKind.identifier, 0, 4⟩)], [], 0, []⟩).code
        ++ [⟨.pop, wrap8 (0 - 0), wrap32 4⟩]) :=
  c1_var_read_and_assign_emission 8 0
    ⟨[⟨.identifier, "x", 0⟩], [("x", ⟨SymKind.identifier, 0, 4⟩)], [], 0, []⟩
    ("x", ⟨SymKind.identifier, 0, 4⟩) []
    9 "x" ⟨SymKind.identifier, 0, 4⟩ 0
    ⟨[⟨.number, "", 1⟩], [("x", ⟨SymKind.identifier, 0, 4⟩)], [], 0, []⟩
    (by decide) (by decide) (by decide)

end PL0CComp

namespace PL0CComp

open Pl0c

/-- Claim C5 counterexample: compiling the condition `odd 3` emits
`pushConst 3` followed by the dedicated `odd` opcode — not
`PushConst 1; BAND` — and the interpreter's dispatch has no case for
that opcode: executing it falls into the `default:` unknown-opcode
branch. -/
theorem c5_counterexample :
    ((condition 9 0 ⟨[⟨.odd, "", 0⟩, ⟨.number, "", 3⟩], [], [], 0, []⟩).code.map Instr.op
      = [.pushConst, .odd]) ∧
    (OpCode.band ∉ (condition 9 0 ⟨[⟨.odd, "", 0⟩, ⟨.number, "", 3⟩],
        [], [], 0, []⟩).code.map Instr.op) ∧
    (Interp.step ⟨[⟨.odd, 0, 0⟩], [0, 0, 0, 0, -1, -1], 0, 0, 3⟩ =
      .error .unknownOpcode) := by decide

/-- Claim C5 as amended: for every condition `odd expr` the compiler
emits the code for `expr` followed by the single dedicated `odd`
instruction (no `PushConst 1`/`BAND` synthesis), and that opcode —
like the compiler's `pop` — has no case in the interpreter's dispatch,
which treats it as an unknown opcode. -/
theorem c5_odd_emission (f : Nat) (level : Int) (st : CState)
    (s : Interp.IState) (lvl addr : Int)
    (hodd : curKind st = .odd)
    (hpc : 0 ≤ s.pc ∧ s.pc < (s.code.length : Int))
    (hsp : s.sp < (s.stack.length : Int))
    (hfetch : s.code.getD s.pc.toNat ⟨.halt, 0, 0⟩ = ⟨.odd, lvl, addr⟩) :
    ((condition f level st).code =
      (expression f level (advance st)).code ++ [⟨.odd, 0, 0⟩]) ∧
    (Interp.step s = .error .unknownOpcode) := by
  constructor
  · simp only [condition, accept_pos true hodd, if_pos]
    simp
  · have hsp' : ¬ (s.sp ≠ -1 ∧ ¬ (s.sp < (s.stack.length : Int))) := by
      intro h; exact h.2 hsp
    unfold Interp.step
    rw [if_neg (not_not_intro hpc), if_neg hsp']
    simp only [hfetch, Interp.normInstr]

/-- Witness for the amended C5: the condition `odd 3` and a machine
fetching an `odd 0 0` instruction. -/
theorem c5_witness :
    ((condition 9 0 ⟨[⟨.odd, "", 0⟩, ⟨.number, "", 3⟩], [], [], 0, []⟩).code =
      (expression 9 0 (advance ⟨[⟨.odd, "", 0⟩, ⟨.number, "", 3⟩], [], [], 0, []⟩)).code
        ++ [⟨.odd, 0, 0⟩]) ∧
    (Interp.step ⟨[⟨.odd, 0, 0⟩], [0, 0, 0, 0, -1, -1], 0, 0, 3⟩ =
      .error .unknownOpcode) :=
  c5_odd_emission 9 0 ⟨[⟨.odd, "", 0⟩, ⟨.number, "", 3⟩], [], [], 0, []⟩
    ⟨[⟨.odd, 0, 0⟩], [0, 0, 0, 0, -1, -1], 0, 0, 3⟩ 0 0
    (by decide) (by decide) (by decide) (by decide)

end PL0CComp

namespace PL0CComp

open Pl0c

/-- Claim C6 counterexample: parsing the term `1 % 2` stops after the
first factor — the `%` token is not accepted by the term production
(only `*` and `/` are), no `rem` opcode is emitted, and `% 2` is left
unconsumed in the token stream. -/
theorem c6_counterexample :
    ((terminal 9 0 ⟨[⟨.number, "", 1⟩, ⟨.mod, "", 0⟩, ⟨.number, "", 2⟩],
        [], [], 0, []⟩).code = [⟨.pushConst, 0, 1⟩]) ∧
    ((terminal 9 0 ⟨[⟨.number, "", 1⟩, ⟨.mod, "", 0⟩, ⟨.number, "", 2⟩],
        [], [], 0, []⟩).toks = [⟨.mod, "", 0⟩, ⟨.number, "", 2⟩]) ∧
    (OpCode.rem ∉ (terminal 9 0 ⟨[⟨.number, "", 1⟩, ⟨.mod, "", 0⟩, ⟨.number, "", 2⟩],
        [], [], 0, []⟩).code.map Instr.op) := by decide

/-- Claim C6 as amended: the term production accepts only the binary
operators `*` and `/` between factors — for `*` it compiles the next
factor and emits `mul`, for `/` it emits `div`, and on any other
token (`%`, `&`, `<<`, `>>`, `&&`, ...) the operator loop stops,
leaving the token unconsumed. -/
theorem c6_term_mul_div_only (f : Nat) (level : Int)
    (stM stD stO : CState) (kO : TokKind)
    (hM : curKind stM = .mul) (hD : curKind stD = .div)
    (hO : curKind stO = kO) (hO1 : kO ≠ .mul) (hO2 : kO ≠ .div) :
    (terminal (f + 1) level stM = termLoop f level (factor f level stM)) ∧
    (termLoop (f + 1) level stM =
      termLoop f level ((emit .mul 0 0 (factor f level (advance stM))).2)) ∧
    (termLoop (f + 1) level stD =
      termLoop f level ((emit .div 0 0 (factor f level (advance stD))).2)) ∧
    (termLoop (f + 1) level stO = stO) := by
  refine ⟨rfl, ?_, ?_, ?_⟩
  · simp [termLoop, hM]
  · simp [termLoop, hD]
  · simp [termLoop, hO, hO1, hO2]

/-- Witness for the amended C6: three concrete streams whose current
tokens are `*`, `/` and `%`. -/
theorem c6_witness :
    (terminal 9 0 ⟨[⟨.mul, "", 0⟩, ⟨.number, "", 2⟩], [], [⟨.pushConst, 0, 1⟩], 0, []⟩ =
      termLoop 8 0 (factor 8 0 ⟨[⟨.mul, "", 0⟩, ⟨.number, "", 2⟩], [], [⟨.pushConst, 0, 1⟩], 0, []⟩)) ∧
    (termLoop 9 0 ⟨[⟨.mul, "", 0⟩, ⟨.number, "", 2⟩], [], [⟨.pushConst, 0, 1⟩], 0, []⟩ =
      termLoop 8 0 ((emit .mul 0 0 (factor 8 0
        (advance ⟨[⟨.mul, "", 0⟩, ⟨.number, "", 2⟩], [], [⟨.pushConst, 0, 1⟩], 0, []⟩))).2)) ∧
    (termLoop 9 0 ⟨[⟨.div, "", 0⟩, ⟨.number, "", 2⟩], [], [⟨.pushConst, 0, 1⟩], 0, []⟩ =
      termLoop 8 0 ((emit .div 0 0 (factor 8 0
        (advance ⟨[⟨.div, "", 0⟩, ⟨.number, "", 2⟩], [], [⟨.pushConst, 0, 1⟩], 0, []⟩))).2)) ∧
    (termLoop 9 0 ⟨[⟨.mod, "", 0⟩, ⟨.number, "", 2⟩], [], [⟨.pushConst, 0, 1⟩], 0, []⟩ =
      ⟨[⟨.mod, "", 0⟩, ⟨.number, "", 2⟩], [], [⟨.pushConst, 0, 1⟩], 0, []⟩) :=
  c6_term_mul_div_only 8 0
    ⟨[⟨.mul, "", 0⟩, ⟨.number, "", 2⟩], [], [⟨.pushConst, 0, 1⟩], 0, []⟩
    ⟨[⟨.div, "", 0⟩, ⟨.number, "", 2⟩], [], [⟨.pushConst, 0, 1⟩], 0, []⟩
    ⟨[⟨.mod, "", 0⟩, ⟨.number, "", 2⟩], [], [⟨.pushConst, 0, 1⟩], 0, []⟩
    .mod (by decide) (by decide) (by decide) (by decide) (by decide)

end PL0CComp

namespace PL0CComp

open Pl0c

/-! ### Diagnostics only accumulate -/

theorem errext_refl (st : CState) : ErrExt st st :=
  ⟨le_refl _, [], (List.append_nil _).symm⟩

theorem errext_trans {a b c : CState} (h1 : ErrExt a b) (h2 : ErrExt b c) : ErrExt a c := by
  obtain ⟨n1, t1, ht1⟩ := h1
  obtain ⟨n2, t2, ht2⟩ := h2
  exact ⟨le_trans n1 n2, t1 ++ t2, by rw [ht2, ht1, List.append_assoc]⟩

theorem errext_step_errorC {a st : CState} (s : String) (h : ErrExt a st) :
    ErrExt a (errorC s st) := by
  obtain ⟨n1, t1, ht1⟩ := h
  exact ⟨le_trans n1 (Nat.le_succ _), t1 ++ [s], by
    show st.errs ++ [s] = a.errs ++ (t1 ++ [s])
    rw [ht1, List.append_assoc]⟩

theorem errext_step_errorC2 {a st : CState} (s t : String) (h : ErrExt a st) :
    ErrExt a (errorC2 s t st) :=
  errext_step_errorC _ h

theorem errext_step_accept {a st : CState} (k : TokKind) (g : Bool) (h : ErrExt a st) :
    ErrExt a ((accept k g st).2) := by
  unfold accept
  by_cases hc : curKind st = k <;> by_cases hg : g <;> simp [hc, hg] <;> exact h

theorem errext_step_expect {a st : CState} (k : TokKind) (g : Bool) (h : ErrExt a st) :
    ErrExt a ((expect k g st).2) := by
  unfold expect
  by_cases hc : (accept k g st).1
  · simpa [hc] using errext_step_accept k g h
  · simpa [hc] using errext_step_errorC _ (errext_step_accept k g h)

theorem errext_step_errRepeat {a st : CState} (k : Nat) (s t : String) (h : ErrExt a st) :
    ErrExt a (errRepeat k s t st) := by
  induction k generalizing st with
  | zero => exact h
  | succ n ih => exact ih (errext_step_errorC2 s t h)

theorem exprfam_errext (f : Nat) :
    (∀ a level st, ErrExt a st → ErrExt a (identifier f level st)) ∧
    (∀ a level st, ErrExt a st → ErrExt a (factor f level st)) ∧
    (∀ a level st, ErrExt a st → ErrExt a (termLoop f level st)) ∧
    (∀ a level st, ErrExt a st → ErrExt a (terminal f level st)) ∧
    (∀ a level st, ErrExt a st → ErrExt a (exprLoop f level st)) ∧
    (∀ a level st, ErrExt a st → ErrExt a (expression f level st)) ∧
    (∀ a level st, ErrExt a st → ErrExt a (exprList f level st)) := by
  induction f with
  | zero =>
    exact ⟨fun _ _ _ h => h, fun _ _ _ h => h, fun _ _ _ h => h, fun _ _ _ h => h,
      fun _ _ _ h => h, fun _ _ _ h => h, fun _ _ _ h => h⟩
  | succ n ih =>
    obtain ⟨ihI, ihF, ihTL, ihT, ihEL, ihE, ihX⟩ := ih
    refine ⟨?_, ?_, ?_, ?_, ?_, ?_, ?_⟩
    · intro a level st h
      simp only [identifier]
      split
      · exact errext_step_errorC2 _ _ h
      · split
        · exact h
        · split
          · exact h
          · split
            · split
              · exact errext_step_expect _ _ (ihX a level _
                  (errext_step_expect _ _ h))
              · exact errext_step_expect _ _ (errext_step_expect _ _ h)
            · exact errext_step_errorC2 _ _ h
    · intro a level st h
      simp only [factor]
      split
      · exact ihI a level st h
      · split
        · exact errext_step_expect _ _ h
        · split
          · exact errext_step_expect _ _ (ihE a level _ (errext_step_accept _ _ h))
          · exact errext_step_errorC2 _ _ (errext_step_accept _ _ h)
    · intro a level st h
      simp only [termLoop]
      split
      · split
        · exact ihTL a level _ (ihF a level _ h)
        · exact ihTL a level _ (ihF a level _ h)
      · exact h
    · intro a level st h
      simp only [terminal]
      exact ihTL a level _ (ihF a level st h)
    · intro a level st h
      simp only [exprLoop]
      split
      · split
        · exact ihEL a level _ (ihT a level _ h)
        · exact ihEL a level _ (ihT a level _ h)
      · exact h
    · intro a level st h
      simp only [expression]
      split
      · split
        · exact ihEL a level _ (ihT a level _ h)
        · exact ihEL a level _ (ihT a level _ h)
      · split
        · exact ihEL a level _ (ihT a level _ h)
        · exact ihEL a level _ (ihT a level _ h)
    · intro a level st h
      simp only [exprList]
      split
      · exact ihX a level _ (errext_step_accept _ _ (ihE a level st h))
      · exact errext_step_accept _ _ (ihE a level st h)

end PL0CComp

namespace PL0CComp

open Pl0c

theorem errext_identifier (f : Nat) (a : CState) (level : Int) (st : CState)
    (h : ErrExt a st) : ErrExt a (identifier f level st) :=
  (exprfam_errext f).1 a level st h

theorem errext_expression (f : Nat) (a : CState) (level : Int) (st : CState)
    (h : ErrExt a st) : ErrExt a (expression f level st) :=
  (exprfam_errext f).2.2.2.2.2.1 a level st h

theorem errext_exprList (f : Nat) (a : CState) (level : Int) (st : CState)
    (h : ErrExt a st) : ErrExt a (exprList f level st) :=
  (exprfam_errext f).2.2.2.2.2.2 a level st h

theorem errext_condition (f : Nat) (a : CState) (level : Int) (st : CState)
    (h : ErrExt a st) : ErrExt a (condition f level st) := by
  simp only [condition]
  split
  · exact errext_expression f a level _ (errext_step_accept _ _ h)
  · split
    · exact errext_expression f a level _
        (errext_expression f a level _ (errext_step_accept _ _ h))
    · exact errext_expression f a level _ (errext_step_accept _ _ h)

theorem errext_assignStmt (f : Nat) (a : CState) (name : String) (val : SymValue)
    (level : Int) (st : CState) (h : ErrExt a st) : ErrExt a (assignStmt f name val level st) := by
  unfold assignStmt
  split
  · exact errext_expression f a level st h
  · exact errext_expression f a level st h
  · exact errext_step_errorC2 _ _ (errext_expression f a level st h)
  · exact errext_step_errorC2 _ _ (errext_expression f a level st h)

theorem errext_callStmt (f : Nat) (a : CState) (name : String) (val : SymValue)
    (level : Int) (st : CState) (h : ErrExt a st) : ErrExt a (callStmt f name val level st) := by
  unfold callStmt
  split
  · split
    · exact errext_step_errorC2 _ _
        (errext_step_expect _ _ (errext_exprList f a level st h))
    · exact errext_step_expect _ _ (errext_exprList f a level st h)
  · split
    · exact errext_step_errorC2 _ _ (errext_step_expect _ _ h)
    · exact errext_step_expect _ _ h

theorem errext_identStmt (f : Nat) (a : CState) (level : Int) (st : CState)
    (h : ErrExt a st) : ErrExt a (identStmt f level st) := by
  simp only [identStmt]
  split
  · exact errext_step_errorC2 _ _ h
  · split
    · exact errext_assignStmt f a _ _ level _ (errext_step_accept _ _ h)
    · split
      · exact errext_callStmt f a _ _ level _
          (errext_step_accept _ _ (errext_step_accept _ _ h))
      · exact errext_step_errorC2 _ _
          (errext_step_accept _ _ (errext_step_accept _ _ h))

theorem stmtfam_errext (f : Nat) :
    (∀ a level st, ErrExt a st → ErrExt a (whileStmt f level st)) ∧
    (∀ a level st, ErrExt a st → ErrExt a (ifStmt f level st)) ∧
    (∀ a level st, ErrExt a st → ErrExt a (repeatStmt f level st)) ∧
    (∀ a level st, ErrExt a st → ErrExt a (stmtSeq f level st)) ∧
    (∀ a level st, ErrExt a st → ErrExt a (statement f level st)) := by
  induction f with
  | zero =>
    exact ⟨fun _ _ _ h => h, fun _ _ _ h => h, fun _ _ _ h => h,
      fun _ _ _ h => h, fun _ _ _ h => h⟩
  | succ n ih =>
    obtain ⟨ihW, ihIf, ihR, ihSeq, ihS⟩ := ih
    refine ⟨?_, ?_, ?_, ?_, ?_⟩
    · intro a level st h
      simp only [whileStmt]
      exact ihS a level _ (errext_step_expect _ _ (errext_condition n a level st h))
    · intro a level st h
      simp only [ifStmt]
      split
      · exact ihS a level _
          (errext_step_accept _ _ (ihS a level _
            (errext_step_expect _ _ (errext_condition n a level st h))))
      · exact errext_step_accept _ _ (ihS a level _
          (errext_step_expect _ _ (errext_condition n a level st h)))
    · intro a level st h
      simp only [repeatStmt]
      exact errext_condition n a level _
        (errext_step_expect _ _ (ihS a level st h))
    · intro a level st h
      simp only [stmtSeq]
      split
      · exact ihSeq a level _ (errext_step_accept _ _ (ihS a level st h))
      · exact errext_step_accept _ _ (ihS a level st h)
    · intro a level st h
      simp only [statement]
      split
      · exact errext_identStmt n a level st h
      · split
        · exact errext_step_expect _ _ (ihSeq a level _ (errext_step_accept _ _ h))
        · split
          · exact ihIf a level _ (errext_step_accept _ _ (errext_step_accept _ _ h))
          · split
            · exact ihW a level _
                (errext_step_accept _ _ (errext_step_accept _ _ (errext_step_accept _ _ h)))
            · split
              · exact ihR a level _ (errext_step_accept _ _
                  (errext_step_accept _ _ (errext_step_accept _ _ (errext_step_accept _ _ h))))
              · exact errext_step_accept _ _ (errext_step_accept _ _
                  (errext_step_accept _ _ (errext_step_accept _ _ h)))

end PL0CComp

namespace PL0CComp

open Pl0c

theorem errext_constDecl (a : CState) (level : Int) (st : CState)
    (h : ErrExt a st) : ErrExt a (constDecl level st) := by
  simp only [constDecl]
  split
  · split
    · exact errext_step_errorC2 _ _ (errext_step_expect _ _
        (errext_step_expect _ _ (errext_step_expect _ _ h)))
    · exact errext_step_expect _ _
        (errext_step_expect _ _ (errext_step_expect _ _ h))
  · exact errext_step_expect _ _
      (errext_step_expect _ _ (errext_step_expect _ _ h))

theorem errext_varDecl (a : CState) (off level : Int) (st : CState)
    (h : ErrExt a st) : ErrExt a (varDecl off level st).2 := by
  simp only [varDecl]
  split
  · split
    · exact errext_step_errorC2 _ _ (errext_step_expect _ _ h)
    · exact errext_step_expect _ _ h
  · exact errext_step_expect _ _ h

theorem errext_constLoop (f : Nat) (a : CState) (level : Int) (st : CState)
    (h : ErrExt a st) : ErrExt a (constLoop f level st) := by
  induction f generalizing st with
  | zero => exact h
  | succ n ih =>
    simp only [constLoop]
    split
    · exact ih _ (errext_step_accept _ _ (errext_constDecl a level st h))
    · exact errext_step_accept _ _ (errext_constDecl a level st h)

theorem errext_varLoop (f : Nat) (a : CState) (dx level : Int) (st : CState)
    (h : ErrExt a st) : ErrExt a (varLoop f dx level st).2 := by
  induction f generalizing dx st with
  | zero => exact h
  | succ n ih =>
    simp only [varLoop]
    split
    · exact ih _ _ (errext_step_accept _ _ (errext_varDecl a dx level st h))
    · exact errext_step_accept _ _ (errext_varDecl a dx level st h)

theorem errext_argsCollect (f : Nat) (a : CState) (off : Int) (st : CState)
    (h : ErrExt a st) : ErrExt a (argsCollect f off st).2.2 := by
  induction f generalizing off st with
  | zero => exact h
  | succ n ih =>
    simp only [argsCollect]
    split
    · exact ih _ _ (errext_step_accept _ _ (errext_step_accept _ _ h))
    · exact errext_step_accept _ _ (errext_step_accept _ _ h)

theorem errext_insertArgs (args : List String) (a : CState) (off lvl : Int) (st : CState)
    (h : ErrExt a st) : ErrExt a (insertArgs args off lvl st) := by
  induction args generalizing off st with
  | nil => exact h
  | cons x r ih => exact ih _ _ h

theorem blockfam_errext (f : Nat) :
    (∀ a level st, ErrExt a st → ErrExt a (subDecl f level st)) ∧
    (∀ a level st, ErrExt a st → ErrExt a (subLoop f level st)) ∧
    (∀ a sn sl sk level nargs st, ErrExt a st →
      ErrExt a (block f sn sl sk level nargs st)) := by
  induction f with
  | zero =>
    exact ⟨fun _ _ _ h => h, fun _ _ _ h => h, fun _ _ _ _ _ _ _ h => h⟩
  | succ n ih =>
    obtain ⟨ihSub, ihLoop, ihBlock⟩ := ih
    refine ⟨?_, ?_, ?_⟩
    · intro a level st h
      simp only [subDecl]
      split
      · split
        · split
          · exact errext_step_expect _ _ (ihBlock a _ _ _ _ _ _
              (errext_step_expect _ _ (errext_insertArgs _ a _ _ _
                (errext_argsCollect n a _ _ (errext_step_expect _ _
                  (errext_step_errRepeat _ _ _ (errext_step_expect _ _ h)))))))
          · exact errext_step_expect _ _ (ihBlock a _ _ _ _ _ _
              (errext_step_expect _ _ (errext_insertArgs _ a _ _ _
                (errext_step_expect _ _
                  (errext_step_errRepeat _ _ _ (errext_step_expect _ _ h))))))
        · split
          · exact errext_step_expect _ _ (ihBlock a _ _ _ _ _ _
              (errext_step_expect _ _ (errext_insertArgs _ a _ _ _
                (errext_argsCollect n a _ _ (errext_step_expect _ _
                  (errext_step_errRepeat _ _ _ (errext_step_expect _ _ h)))))))
          · exact errext_step_expect _ _ (ihBlock a _ _ _ _ _ _
              (errext_step_expect _ _ (errext_insertArgs _ a _ _ _
                (errext_step_expect _ _
                  (errext_step_errRepeat _ _ _ (errext_step_expect _ _ h))))))
      · exact errext_step_expect _ _ h
    · intro a level st h
      simp only [subLoop]
      split
      · exact ihLoop a level _ (ihSub a level st h)
      · exact h
    · intro a sn sl sk level nargs st h
      simp only [block]
      repeat' split
      all_goals first
        | exact (stmtfam_errext n).2.2.2.2 a level _ (ihLoop a level _
            (errext_step_expect _ _ (errext_varLoop n a _ _ _
              (errext_step_accept _ _ (errext_step_expect _ _
                (errext_constLoop n a level _ (errext_step_accept _ _ h)))))))
        | exact (stmtfam_errext n).2.2.2.2 a level _ (ihLoop a level _
            (errext_step_accept _ _ (errext_step_expect _ _
              (errext_constLoop n a level _ (errext_step_accept _ _ h)))))
        | exact (stmtfam_errext n).2.2.2.2 a level _ (ihLoop a level _
            (errext_step_expect _ _ (errext_varLoop n a _ _ _
              (errext_step_accept _ _ (errext_step_accept _ _ h)))))
        | exact (stmtfam_errext n).2.2.2.2 a level _ (ihLoop a level _
            (errext_step_accept _ _ (errext_step_accept _ _ h)))

end PL0CComp


namespace PL0CComp

open Pl0c

theorem errRepeat_errs (k : Nat) (s t : String) (st : CState) :
    (errRepeat k s t st).errs = st.errs ++ List.replicate k (s ++ " " ++ t) := by
  induction k generalizing st with
  | zero => simp [errRepeat]
  | succ n ih =>
    simp [errRepeat, ih, errorC2, errorC, List.replicate_succ]

theorem errext_step_insertSym {a st : CState} (e : String × SymValue) (h : ErrExt a st) :
    ErrExt a (insertSym e st) := h

theorem c9_sub_part (f : Nat) (k0 : TokKind) (name : String) (level : Int)
    (tbl : SymTable) (code : List Instr) (nerr : Nat) (errs : List String)
    (rest : List Token)
    (hdup : (matchesOf name tbl).any (fun p => p.2.level = level) = true) :
    nerr + 1 ≤ (subDecl (f + 1) level ⟨⟨k0, "", 0⟩ :: ⟨.identifier, name, 0⟩ :: rest,
        tbl, code, nerr, errs⟩).nErrors ∧
    ("identifier has previously been defined" ++ " " ++ name) ∈
      (subDecl (f + 1) level ⟨⟨k0, "", 0⟩ :: ⟨.identifier, name, 0⟩ :: rest,
        tbl, code, nerr, errs⟩).errs := by
  have hdups : 1 ≤ ((matchesOf name tbl).filter (fun p => p.2.level = level)).length := by
    obtain ⟨x, hx, hpx⟩ := List.any_eq_true.mp hdup
    exact List.length_pos.mpr (List.ne_nil_of_mem (List.mem_filter.mpr ⟨hx, hpx⟩))
  have hext : ErrExt
      (errRepeat ((matchesOf name tbl).filter (fun p => p.2.level = level)).length
        "identifier has previously been defined" name ⟨rest, tbl, code, nerr, errs⟩)
      (subDecl (f + 1) level ⟨⟨k0, "", 0⟩ :: ⟨.identifier, name, 0⟩ :: rest,
        tbl, code, nerr, errs⟩) := by
    refine errext_step_expect _ _ ((blockfam_errext f).2.2 _ _ _ _ _ _ _
      (errext_step_expect _ _ (errext_insertArgs _ _ _ _ _ ?_)))
    split <;> split
    all_goals first
      | exact errext_argsCollect f _ _ _ (errext_step_expect _ _
          (errext_step_insertSym _ (errext_refl _)))
      | exact errext_step_expect _ _ (errext_step_insertSym _ (errext_refl _))
  refine ⟨le_trans ?_ hext.1, ?_⟩
  · simp only [errRepeat_nErrors]
    show nerr + 1 ≤ nerr + ((matchesOf name tbl).filter (fun p => p.2.level = level)).length
    omega
  · obtain ⟨t, ht⟩ := hext.2
    rw [ht, errRepeat_errs]
    refine List.mem_append.mpr (Or.inl (List.mem_append.mpr (Or.inr ?_)))
    exact List.mem_replicate.mpr ⟨by omega, rfl⟩

/-- Claim C9: a constant, variable, procedure, or function declaration
whose identifier already has a symbol-table entry at the same lexical
level reports a redefinition diagnostic and increments the error count
(`constDecl` and `varDecl` stop after one diagnostic; `subDecl` — the
shared path for `procedure` and `function` headers, whose duplicate
loop runs before the proc/func branch — reports one per clashing entry
and carries on). -/
theorem c9_redefinition_reports_error (f : Nat) (name : String)
    (level number off : Int) (tbl : SymTable) (code : List Instr)
    (nerr : Nat) (errs : List String) (restC restV restS restF : List Token)
    (hdup : (matchesOf name tbl).any (fun p => p.2.level = level) = true) :
    ((constDecl level ⟨⟨.identifier, name, 0⟩ :: ⟨.assign, "", 0⟩ :: ⟨.number, "", number⟩ :: restC,
        tbl, code, nerr, errs⟩).nErrors = nerr + 1 ∧
     (constDecl level ⟨⟨.identifier, name, 0⟩ :: ⟨.assign, "", 0⟩ :: ⟨.number, "", number⟩ :: restC,
        tbl, code, nerr, errs⟩).errs
       = errs ++ ["identifier has previously been defined" ++ " " ++ name]) ∧
    ((varDecl off level ⟨⟨.identifier, name, 0⟩ :: restV, tbl, code, nerr, errs⟩).2.nErrors
        = nerr + 1 ∧
     (varDecl off level ⟨⟨.identifier, name, 0⟩ :: restV, tbl, code, nerr, errs⟩).2.errs
       = errs ++ ["identifer has previously been defined" ++ " " ++ name]) ∧
    (nerr + 1 ≤ (subDecl (f + 1) level ⟨⟨.procDecl, "", 0⟩ :: ⟨.identifier, name, 0⟩ :: restS,
        tbl, code, nerr, errs⟩).nErrors ∧
     ("identifier has previously been defined" ++ " " ++ name) ∈
       (subDecl (f + 1) level ⟨⟨.procDecl, "", 0⟩ :: ⟨.identifier, name, 0⟩ :: restS,
        tbl, code, nerr, errs⟩).errs) ∧
    (nerr + 1 ≤ (subDecl (f + 1) level ⟨⟨.funcDecl, "", 0⟩ :: ⟨.identifier, name, 0⟩ :: restF,
        tbl, code, nerr, errs⟩).nErrors ∧
     ("identifier has previously been defined" ++ " " ++ name) ∈
       (subDecl (f + 1) level ⟨⟨.funcDecl, "", 0⟩ :: ⟨.identifier, name, 0⟩ :: restF,
        tbl, code, nerr, errs⟩).errs) := by
  refine ⟨⟨?_, ?_⟩, ⟨?_, ?_⟩,
    c9_sub_part f .procDecl name level tbl code nerr errs restS hdup,
    c9_sub_part f .funcDecl name level tbl code nerr errs restF hdup⟩
  · simp [constDecl, expect, accept, curKind, curTok, advance, hdup, errorC2, errorC]
  · simp [constDecl, expect, accept, curKind, curTok, advance, hdup, errorC2, errorC]
  · simp [varDecl, expect, accept, curKind, curTok, advance, hdup, errorC2, errorC]
  · simp [varDecl, expect, accept, curKind, curTok, advance, hdup, errorC2, errorC]

/-- Witness for C9: redeclaring `x` (already a level-0 variable) as a
constant, a variable, a procedure, and a function. -/
theorem c9_witness :
    ((constDecl 0 ⟨[⟨.identifier, "x", 0⟩, ⟨.assign, "", 0⟩, ⟨.number, "", 7⟩],
        [("x", ⟨SymKind.identifier, 0, 4⟩)], [], 0, []⟩).nErrors = 0 + 1 ∧
     (constDecl 0 ⟨[⟨.identifier, "x", 0⟩, ⟨.assign, "", 0⟩, ⟨.number, "", 7⟩],
        [("x", ⟨SymKind.identifier, 0, 4⟩)], [], 0, []⟩).errs
       = [] ++ ["identifier has previously been defined" ++ " " ++ "x"]) ∧
    ((varDecl 5 0 ⟨[⟨.identifier, "x", 0⟩],
        [("x", ⟨SymKind.identifier, 0, 4⟩)], [], 0, []⟩).2.nErrors = 0 + 1 ∧
     (varDecl 5 0 ⟨[⟨.identifier, "x", 0⟩],
        [("x", ⟨SymKind.identifier, 0, 4⟩)], [], 0, []⟩).2.errs
       = [] ++ ["identifer has previously been defined" ++ " " ++ "x"]) ∧
    (0 + 1 ≤ (subDecl (5 + 1) 0 ⟨[⟨.procDecl, "", 0⟩, ⟨.identifier, "x", 0⟩],
        [("x", ⟨SymKind.identifier, 0, 4⟩)], [], 0, []⟩).nErrors ∧
     ("identifier has previously been defined" ++ " " ++ "x") ∈
       (subDecl (5 + 1) 0 ⟨[⟨.procDecl, "", 0⟩, ⟨.identifier, "x", 0⟩],
        [("x", ⟨SymKind.identifier, 0, 4⟩)], [], 0, []⟩).errs) ∧
    (0 + 1 ≤ (subDecl (5 + 1) 0 ⟨[⟨.funcDecl, "", 0⟩, ⟨.identifier, "x", 0⟩],
        [("x", ⟨SymKind.identifier, 0, 4⟩)], [], 0, []⟩).nErrors ∧
     ("identifier has previously been defined" ++ " " ++ "x") ∈
       (subDecl (5 + 1) 0 ⟨[⟨.funcDecl, "", 0⟩, ⟨.identifier, "x", 0⟩],
        [("x", ⟨SymKind.identifier, 0, 4⟩)], [], 0, []⟩).errs) :=
  c9_redefinition_reports_error 5 "x" 0 7 5 [("x", ⟨SymKind.identifier, 0, 4⟩)]
    [] 0 [] [] [] [] [] (by decide)

end PL0CComp

namespace PL0CComp

open Pl0c

/-! ### Symbol-table lookup and scope discipline -/

theorem closestOf_spec :
    ∀ (l : List (String × SymValue)) (c : String × SymValue),
      closestOf c l ∈ c :: l ∧ ∀ e ∈ c :: l, e.2.level ≤ (closestOf c l).2.level := by
  intro l
  induction l with
  | nil =>
    intro c
    refine ⟨List.mem_singleton.mpr rfl, ?_⟩
    intro e he
    rw [List.mem_singleton.mp he]
    exact le_refl _
  | cons x r ih =>
    intro c
    simp only [closestOf]
    obtain ⟨hmem, hmax⟩ := ih (if x.2.level > c.2.level then x else c)
    have hd : (if x.2.level > c.2.level then x else c).2.level ≤
        (closestOf (if x.2.level > c.2.level then x else c) r).2.level :=
      hmax _ (List.mem_cons.mpr (Or.inl rfl))
    constructor
    · rcases List.mem_cons.mp hmem with h | h
      · rw [h]
        split
        · exact List.mem_cons.mpr (Or.inr (List.mem_cons.mpr (Or.inl rfl)))
        · exact List.mem_cons.mpr (Or.inl rfl)
      · exact List.mem_cons.mpr (Or.inr (List.mem_cons.mpr (Or.inr h)))
    · intro e he
      rcases List.mem_cons.mp he with h | h
      · rw [h]
        refine le_trans ?_ hd
        split <;> omega
      · rcases List.mem_cons.mp h with h2 | h2
        · rw [h2]
          refine le_trans ?_ hd
          split <;> omega
        · exact hmax e (List.mem_cons.mpr (Or.inr h2))

theorem exprfam_symtbl (f : Nat) :
    (∀ level st, (identifier f level st).symtbl = st.symtbl) ∧
    (∀ level st, (factor f level st).symtbl = st.symtbl) ∧
    (∀ level st, (termLoop f level st).symtbl = st.symtbl) ∧
    (∀ level st, (terminal f level st).symtbl = st.symtbl) ∧
    (∀ level st, (exprLoop f level st).symtbl = st.symtbl) ∧
    (∀ level st, (expression f level st).symtbl = st.symtbl) ∧
    (∀ level st, (exprList f level st).symtbl = st.symtbl) := by
  induction f with
  | zero =>
    exact ⟨fun _ _ => rfl, fun _ _ => rfl, fun _ _ => rfl, fun _ _ => rfl,
      fun _ _ => rfl, fun _ _ => rfl, fun _ _ => rfl⟩
  | succ n ih =>
    obtain ⟨ihI, ihF, ihTL, ihT, ihEL, ihE, ihX⟩ := ih
    refine ⟨?_, ?_, ?_, ?_, ?_, ?_, ?_⟩ <;> intro level st
    · simp only [identifier]
      repeat' split
      all_goals simp [ihI, ihF, ihTL, ihT, ihEL, ihE, ihX]
    · simp only [factor]
      repeat' split
      all_goals simp [ihI, ihF, ihTL, ihT, ihEL, ihE, ihX]
    · simp only [termLoop]
      repeat' split
      all_goals simp [ihI, ihF, ihTL, ihT, ihEL, ihE, ihX]
    · simp only [terminal]
      simp [ihTL, ihF]
    · simp only [exprLoop]
      repeat' split
      all_goals simp [ihI, ihF, ihTL, ihT, ihEL, ihE, ihX]
    · simp only [expression]
      repeat' split
      all_goals simp [ihI, ihF, ihTL, ihT, ihEL, ihE, ihX]
    · simp only [exprList]
      repeat' split
      all_goals simp [ihI, ihF, ihTL, ihT, ihEL, ihE, ihX]

theorem expression_symtbl (f : Nat) (level : Int) (st : CState) :
    (expression f level st).symtbl = st.symtbl :=
  (exprfam_symtbl f).2.2.2.2.2.1 level st

theorem exprList_symtbl (f : Nat) (level : Int) (st : CState) :
    (exprList f level st).symtbl = st.symtbl :=
  (exprfam_symtbl f).2.2.2.2.2.2 level st

theorem condition_symtbl (f : Nat) (level : Int) (st : CState) :
    (condition f level st).symtbl = st.symtbl := by
  simp only [condition]
  repeat' split
  all_goals simp [expression_symtbl]

theorem assignStmt_symtbl (f : Nat) (name : String) (val : SymValue) (level : Int)
    (st : CState) : (assignStmt f name val level st).symtbl = st.symtbl := by
  simp only [assignStmt]
  repeat' split
  all_goals simp [expression_symtbl]

theorem callStmt_symtbl (f : Nat) (name : String) (val : SymValue) (level : Int)
    (st : CState) : (callStmt f name val level st).symtbl = st.symtbl := by
  simp only [callStmt]
  repeat' split
  all_goals simp [exprList_symtbl]

theorem identStmt_symtbl (f : Nat) (level : Int) (st : CState) :
    (identStmt f level st).symtbl = st.symtbl := by
  simp only [identStmt]
  repeat' split
  all_goals simp [assignStmt_symtbl, callStmt_symtbl]

theorem stmtfam_symtbl (f : Nat) :
    (∀ level st, (whileStmt f level st).symtbl = st.symtbl) ∧
    (∀ level st, (ifStmt f level st).symtbl = st.symtbl) ∧
    (∀ level st, (repeatStmt f level st).symtbl = st.symtbl) ∧
    (∀ level st, (stmtSeq f level st).symtbl = st.symtbl) ∧
    (∀ level st, (statement f level st).symtbl = st.symtbl) := by
  induction f with
  | zero =>
    exact ⟨fun _ _ => rfl, fun _ _ => rfl, fun _ _ => rfl, fun _ _ => rfl, fun _ _ => rfl⟩
  | succ n ih =>
    obtain ⟨ihW, ihIf, ihR, ihSeq, ihS⟩ := ih
    refine ⟨?_, ?_, ?_, ?_, ?_⟩ <;> intro level st
    · simp only [whileStmt]
      simp [ihS, condition_symtbl]
    · simp only [ifStmt]
      repeat' split
      all_goals simp [ihS, condition_symtbl]
    · simp only [repeatStmt]
      simp [ihS, condition_symtbl]
    · simp only [stmtSeq]
      repeat' split
      all_goals simp [ihS, ihSeq]
    · simp only [statement]
      repeat' split
      all_goals simp [ihW, ihIf, ihR, ihSeq, ihS, identStmt_symtbl]

theorem statement_symtbl (f : Nat) (level : Int) (st : CState) :
    (statement f level st).symtbl = st.symtbl :=
  (stmtfam_symtbl f).2.2.2.2 level st

end PL0CComp

namespace PL0CComp

open Pl0c

theorem bounded_mono {L L' : Int} {tbl : SymTable} (h : Bounded L tbl) (hle : L ≤ L') :
    Bounded L' tbl :=
  fun p hp => le_trans (h p hp) hle

theorem bounded_append {L : Int} {tbl : SymTable} {e : String × SymValue}
    (h : Bounded L tbl) (he : e.2.level ≤ L) : Bounded L (tbl ++ [e]) := by
  intro p hp
  rcases List.mem_append.mp hp with h1 | h1
  · exact h p h1
  · rw [List.mem_singleton.mp h1]
    exact he

theorem bounded_filter {L : Int} {tbl : SymTable} (p : String × SymValue → Bool)
    (h : Bounded L tbl) : Bounded L (tbl.filter p) :=
  fun q hq => h q (List.mem_of_mem_filter hq)

theorem mem_setValueFirst_level {name : String} {lvl v : Int} :
    ∀ {tbl : SymTable} {p : String × SymValue}, p ∈ setValueFirst name lvl v tbl →
      ∃ q ∈ tbl, p.2.level = q.2.level := by
  intro tbl
  induction tbl with
  | nil => intro p hp; cases hp
  | cons e r ih =>
    intro p hp
    simp only [setValueFirst] at hp
    split at hp
    · rcases List.mem_cons.mp hp with h | h
      · exact ⟨e, List.mem_cons.mpr (Or.inl rfl), by rw [h]⟩
      · exact ⟨p, List.mem_cons.mpr (Or.inr h), rfl⟩
    · rcases List.mem_cons.mp hp with h | h
      · exact ⟨e, List.mem_cons.mpr (Or.inl rfl), by rw [h]⟩
      · obtain ⟨q, hq, hql⟩ := ih h
        exact ⟨q, List.mem_cons.mpr (Or.inr hq), hql⟩

theorem bounded_setValueLast {L : Int} {tbl : SymTable} (name : String) (lvl v : Int)
    (h : Bounded L tbl) : Bounded L (setValueLast name lvl v tbl) := by
  intro p hp
  unfold setValueLast at hp
  obtain ⟨q, hq, hql⟩ := mem_setValueFirst_level (List.mem_reverse.mp hp)
  rw [hql]
  exact h q (List.mem_reverse.mp hq)

theorem bounded_constDecl {L : Int} {st : CState} (h : Bounded L st.symtbl) :
    Bounded L (constDecl L st).symtbl := by
  simp only [constDecl]
  repeat' split
  all_goals simp_all [insertSym]
  exact bounded_append (by simpa using h) (le_refl _)

theorem bounded_varDecl {L off : Int} {st : CState} (h : Bounded L st.symtbl) :
    Bounded L (varDecl off L st).2.symtbl := by
  simp only [varDecl]
  repeat' split
  all_goals simp_all [insertSym]
  exact bounded_append (by simpa using h) (le_refl _)

theorem bounded_constLoop (f : Nat) {L : Int} {st : CState} (h : Bounded L st.symtbl) :
    Bounded L (constLoop f L st).symtbl := by
  induction f generalizing st with
  | zero => exact h
  | succ n ih =>
    simp only [constLoop]
    split
    · exact ih (by simpa using bounded_constDecl h)
    · simpa using bounded_constDecl h

theorem bounded_varLoop (f : Nat) {L dx : Int} {st : CState} (h : Bounded L st.symtbl) :
    Bounded L (varLoop f dx L st).2.symtbl := by
  induction f generalizing dx st with
  | zero => exact h
  | succ n ih =>
    simp only [varLoop]
    split
    · exact ih (by simpa using bounded_varDecl h)
    · simpa using bounded_varDecl h

theorem argsCollect_symtbl (f : Nat) (off : Int) (st : CState) :
    (argsCollect f off st).2.2.symtbl = st.symtbl := by
  induction f generalizing off st with
  | zero => rfl
  | succ n ih =>
    simp only [argsCollect]
    split
    · simp [ih]
    · simp

theorem bounded_insertArgs (args : List String) {L : Int} (off lvl : Int) {st : CState}
    (h : Bounded L st.symtbl) (hlvl : lvl ≤ L) :
    Bounded L (insertArgs args off lvl st).symtbl := by
  induction args generalizing off st with
  | nil => exact h
  | cons x r ih =>
    simp only [insertArgs]
    exact ih _ (by simpa [insertSym] using bounded_append h hlvl)

/-- Completing a block at level `L` purges every level-`L` entry: the
last step of `PL0CComp::block` filters the table. -/
theorem block_purges_level (f : Nat) (sn : String) (sl : Int) (sk : SymKind)
    (level nargs : Int) (st : CState) :
    ∀ p ∈ (block (f + 1) sn sl sk level nargs st).symtbl, p.2.level ≠ level := by
  simp only [block]
  intro p hp
  simp only [List.mem_filter] at hp
  exact of_decide_eq_true hp.2

end PL0CComp

namespace PL0CComp

open Pl0c

/-- Claim C7: (i) the compiler's symbol lookup scan returns an entry of
the name with the greatest level among that name's entries; (ii) on a
table bounded by the current nesting level `L` — which the block-level
operations maintain: `constDecl`/`varDecl` at level `L` insert at `L`,
the statement and expression phases never touch the table, and every
completed nested block purges its own (deeper) level, per the last
conjunct instantiated one level down — the looked-up level never
exceeds `L`; (iii) when compilation of a block at level `level`
completes, every entry with that level has been removed from the
table. -/
theorem c7_symbol_lookup_and_purge
    (c : String × SymValue) (rest : List (String × SymValue))
    (L off : Int) (tbl : SymTable) (name : String)
    (f g i : Nat) (sn : String) (sl : Int) (sk : SymKind) (level nargs : Int)
    (st stc stv : CState)
    (hB : Bounded L tbl) (hm : matchesOf name tbl = c :: rest)
    (hBc : Bounded level stc.symtbl) (hBv : Bounded level stv.symtbl) :
    (closestOf c rest ∈ c :: rest ∧
     ∀ e ∈ c :: rest, e.2.level ≤ (closestOf c rest).2.level) ∧
    ((closestOf c rest).2.level ≤ L) ∧
    (∀ p ∈ (block (f + 1) sn sl sk level nargs st).symtbl, p.2.level ≠ level) ∧
    (Bounded level (constDecl level stc).symtbl) ∧
    (Bounded level (varDecl off level stv).2.symtbl) ∧
    ((statement g level st).symtbl = st.symtbl) ∧
    ((expression i level st).symtbl = st.symtbl) := by
  obtain ⟨hmem, hmax⟩ := closestOf_spec rest c
  refine ⟨⟨hmem, hmax⟩, ?_, block_purges_level f sn sl sk level nargs st,
    bounded_constDecl hBc, bounded_varDecl hBv, statement_symtbl g level st,
    expression_symtbl i level st⟩
  have hin : closestOf c rest ∈ matchesOf name tbl := by
    rw [hm]
    exact hmem
  exact hB _ (List.mem_of_mem_filter hin)

/-- Witness for C7: `x` bound at levels 0 and 1 (the level-1 binding
wins and stays within the current nesting 1), with concrete block,
declaration and statement states at level 0. -/
theorem c7_witness :
    (closestOf ("x", ⟨SymKind.identifier, 0, 5⟩) [("x", ⟨SymKind.identifier, 1, 4⟩)] ∈
       ("x", (⟨SymKind.identifier, 0, 5⟩ : SymValue)) :: [("x", ⟨SymKind.identifier, 1, 4⟩)] ∧
     ∀ e ∈ ("x", (⟨SymKind.identifier, 0, 5⟩ : SymValue)) :: [("x", ⟨SymKind.identifier, 1, 4⟩)],
       e.2.level ≤ (closestOf ("x", ⟨SymKind.identifier, 0, 5⟩)
         [("x", ⟨SymKind.identifier, 1, 4⟩)]).2.level) ∧
    ((closestOf ("x", ⟨SymKind.identifier, 0, 5⟩)
        [("x", ⟨SymKind.identifier, 1, 4⟩)]).2.level ≤ 1) ∧
    (∀ p ∈ (block (2 + 1) "main" 0 SymKind.proc 0 0
        ⟨[], [("main", ⟨SymKind.proc, 0, 0⟩)], [], 0, []⟩).symtbl, p.2.level ≠ 0) ∧
    (Bounded 0 (constDecl 0 ⟨[], [("main", ⟨SymKind.proc, 0, 0⟩)], [], 0, []⟩).symtbl) ∧
    (Bounded 0 (varDecl 4 0 ⟨[], [("main", ⟨SymKind.proc, 0, 0⟩)], [], 0, []⟩).2.symtbl) ∧
    ((statement 3 0 ⟨[], [("main", ⟨SymKind.proc, 0, 0⟩)], [], 0, []⟩).symtbl =
      (⟨[], [("main", ⟨SymKind.proc, 0, 0⟩)], [], 0, []⟩ : CState).symtbl) ∧
    ((expression 3 0 ⟨[], [("main", ⟨SymKind.proc, 0, 0⟩)], [], 0, []⟩).symtbl =
      (⟨[], [("main", ⟨SymKind.proc, 0, 0⟩)], [], 0, []⟩ : CState).symtbl) :=
  c7_symbol_lookup_and_purge
    ("x", ⟨SymKind.identifier, 0, 5⟩) [("x", ⟨SymKind.identifier, 1, 4⟩)]
    1 4 [("x", ⟨SymKind.identifier, 0, 5⟩), ("x", ⟨SymKind.identifier, 1, 4⟩)] "x"
    2 3 3 "main" 0 SymKind.proc 0 0
    ⟨[], [("main", ⟨SymKind.proc, 0, 0⟩)], [], 0, []⟩
    ⟨[], [("main", ⟨SymKind.proc, 0, 0⟩)], [], 0, []⟩
    ⟨[], [("main", ⟨SymKind.proc, 0, 0⟩)], [], 0, []⟩
    (by decide) (by decide) (by decide) (by decide)

end PL0CComp
